import Mathlib

/-!
# Shipwire inventory allocator: a shallow embedding of `src/shipwire.cpp`

The development follows the source file top-down: `Warehouse`, `OrderLine`,
`Order`, `OrderLog`, `OrderParser`.

Conventions of the embedding

* `unsigned` is a 32-bit machine integer.  Values are natural numbers and every
  arithmetic operation of the source is followed by an explicit reduction
  modulo `UINT_MOD = 2^32` (`uadd`, `usub`).
* `std::map<productKey,unsigned>` is an association list.  `operator[]` is
  `subscript` (it inserts a zero entry for an absent key, as the C++ operator
  does) and `std::map::find` is `find`.
* `std::istringstream` is the list of characters still to be read together
  with the fail bit.
* methods that mutate `this` return the new object.
-/

namespace Shipwire

/-- The key type of a product: `typedef char productKey`. -/
abbrev productKey := Char

/-- Number of values of the 32-bit type `unsigned`. -/
def UINT_MOD : Nat := 4294967296

/-- Addition of two `unsigned` values (`+=`), wrapping modulo `2^32`. -/
def uadd (a b : Nat) : Nat := (a + b) % UINT_MOD

/-- Subtraction of two `unsigned` values (`-=`), wrapping modulo `2^32`. -/
def usub (a b : Nat) : Nat := (a + (UINT_MOD - b % UINT_MOD)) % UINT_MOD

/-! ## `std::map<productKey,unsigned>` -/

/-- The entries of a `std::map<productKey,unsigned>`. -/
abbrev StoreMap := List (productKey × Nat)

/-- Lookup of a key, `std::map::find`: the mapped value, `none` for `end()`. -/
def find : StoreMap → productKey → Option Nat
  | [], _ => none
  | (k, v) :: rest, key => if key = k then some v else find rest key

/-- The map after evaluating `m[key]`: an absent key gets a value-initialised
(zero) entry, a present key leaves the map as it is. -/
def subscript : StoreMap → productKey → StoreMap
  | [], key => [(key, 0)]
  | (k, v) :: rest, key => if key = k then (k, v) :: rest else (k, v) :: subscript rest key

/-- The value read through the reference `m[key]`. -/
def value (m : StoreMap) (key : productKey) : Nat := (find m key).getD 0

/-- Assignment through the reference `m[key]` of an existing entry. -/
def assign : StoreMap → productKey → Nat → StoreMap
  | [], _, _ => []
  | (k, v) :: rest, key, x => if key = k then (k, x) :: rest else (k, v) :: assign rest key x

/-- Sum of all mapped values, as a natural number (no wrap-around). -/
def sumStock (m : StoreMap) : Nat := (m.map Prod.snd).sum

/-! ## `class Warehouse` -/

/-- The inventory: `Stores` and `TotalInventory`. -/
structure Warehouse where
  Stores : StoreMap
  TotalInventory : Nat
deriving DecidableEq, Repr

namespace Warehouse

/-- The constructor `Warehouse() : TotalInventory(0) {}`. -/
def new : Warehouse := { Stores := [], TotalInventory := 0 }

/-- Method `bool IsEmpty()`. -/
def IsEmpty (w : Warehouse) : Bool := w.TotalInventory == 0

/-- Method `void Store(productKey UnitType, unsigned Count)`. -/
def Store (w : Warehouse) (UnitType : productKey) (Count : Nat) : Warehouse :=
  let s := subscript w.Stores UnitType
  { Stores := assign s UnitType (uadd (value s UnitType) Count)
    TotalInventory := uadd w.TotalInventory Count }

/-- Method `bool Pull(productKey UnitType, unsigned Count)`: the returned flag and the
warehouse afterwards.  The comparison already evaluates `Stores[UnitType]`. -/
def Pull (w : Warehouse) (UnitType : productKey) (Count : Nat) : Bool × Warehouse :=
  let s := subscript w.Stores UnitType
  if value s UnitType < Count then
    (false, { w with Stores := s })
  else
    (true, { Stores := assign s UnitType (usub (value s UnitType) Count)
             TotalInventory := usub w.TotalInventory Count })

/-- Method `bool CheckProduct(productKey Product)`. -/
def CheckProduct (w : Warehouse) (Product : productKey) : Bool :=
  (find w.Stores Product).isSome

/-- Stock of a product as seen by a reader that does not insert: the mapped
value, zero when there is no entry. -/
def stock (w : Warehouse) (Product : productKey) : Nat := value w.Stores Product

/-- Every stored number is a value of the type `unsigned`. -/
def InRange (w : Warehouse) : Prop :=
  w.TotalInventory < UINT_MOD ∧ ∀ e ∈ w.Stores, e.2 < UINT_MOD

instance (w : Warehouse) : Decidable w.InRange := by
  unfold InRange; infer_instance

/-- The total is the sum of the stock counts reduced modulo `2^32`. -/
def TotalIsSumMod (w : Warehouse) : Prop := w.TotalInventory = sumStock w.Stores % UINT_MOD

end Warehouse

/-- One call of the public mutating interface of `Warehouse`. -/
inductive Op where
  | store (UnitType : productKey) (Count : Nat)
  | pull (UnitType : productKey) (Count : Nat)
deriving DecidableEq, Repr

/-- The warehouse after one call. -/
def Op.apply (w : Warehouse) : Op → Warehouse
  | .store k c => w.Store k c
  | .pull k c => (w.Pull k c).2

/-- The count argument of a call is a value of the type `unsigned`. -/
def Op.InRange : Op → Prop
  | .store _ c => c < UINT_MOD
  | .pull _ c => c < UINT_MOD

instance (o : Op) : Decidable o.InRange := by
  cases o <;> unfold Op.InRange <;> infer_instance

/-- The warehouse after a sequence of calls, first call first. -/
def runOps (w : Warehouse) (ops : List Op) : Warehouse := ops.foldl Op.apply w

/-! ## `class OrderLine` -/

/-- The part of an order for one product: request and result. -/
structure OrderLine where
  Product : productKey
  Requested : Nat
  Pulled : Nat
  Backlog : Nat
deriving DecidableEq, Repr

namespace OrderLine

/-- The constructor `OrderLine(Product, Requested)`.  It leaves `Pulled` and
`Backlog` uninitialised; the embedding puts 0 there, and `Allocate` does not
read either field. -/
def new (Product : productKey) (Requested : Nat) : OrderLine :=
  { Product := Product, Requested := Requested, Pulled := 0, Backlog := 0 }

/-- Method `void Allocate(Warehouse &Inventory)`: the line and the warehouse
afterwards. -/
def Allocate (l : OrderLine) (Inventory : Warehouse) : OrderLine × Warehouse :=
  let r := Inventory.Pull l.Product l.Requested
  if r.1 then
    ({ l with Pulled := l.Requested, Backlog := 0 }, r.2)
  else
    ({ l with Pulled := 0, Backlog := l.Requested }, r.2)

/-- Method `void Dump() const`: the text written to `std::cout`. -/
def Dump (l : OrderLine) : String :=
  String.singleton l.Product ++ "=" ++ Nat.repr l.Requested ++ "/" ++ Nat.repr l.Pulled
    ++ "%" ++ Nat.repr l.Backlog

end OrderLine

/-! ## `class Order` -/

/-- An order on a stream: its two names and its lines. -/
structure Order where
  Stream : String
  Header : String
  Lines : List OrderLine
deriving DecidableEq, Repr

namespace Order

/-- The constructor `Order(Stream, Header)`. -/
def new (Stream Header : String) : Order := { Stream := Stream, Header := Header, Lines := [] }

/-- Method `void Add(OrderLine Line)`: `push_back`. -/
def Add (o : Order) (Line : OrderLine) : Order := { o with Lines := o.Lines ++ [Line] }

/-- The loop of `Order::Dump`: a separator before every line but the first. -/
def dumpLines : List OrderLine → Bool → String
  | [], _ => ""
  | l :: rest, first => (if first then "" else ", ") ++ l.Dump ++ dumpLines rest false

/-- Method `void Dump() const`: the text written to `std::cout`. -/
def Dump (o : Order) : String :=
  o.Stream ++ "-" ++ o.Header ++ ": " ++ dumpLines o.Lines true ++ "\n"

end Order

/-! ## `class OrderLog` -/

/-- The history of processed orders. -/
structure OrderLog where
  Orders : List Order
deriving DecidableEq, Repr

namespace OrderLog

/-- The implicit default constructor. -/
def new : OrderLog := { Orders := [] }

/-- Method `void Add(Order Order)`: `push_back`. -/
def Add (g : OrderLog) (order : Order) : OrderLog := { Orders := g.Orders ++ [order] }

/-- Method `void Dump() const`: the text written to `std::cout`. -/
def Dump (g : OrderLog) : String := String.join (g.Orders.map Order.Dump)

end OrderLog

/-! ## `std::istringstream`

Formatted extraction in the classic locale.  A failed extraction sets the fail
bit, and every extraction on a stream whose fail bit is set does nothing. -/

/-- The characters not yet read and the fail bit. -/
structure istringstream where
  buf : List Char
  fail : Bool
deriving DecidableEq, Repr

/-- White space of the classic locale: space and the controls 9 to 13. -/
def isspace (c : Char) : Bool := c.toNat == 32 || (9 ≤ c.toNat && c.toNat ≤ 13)

/-- Decimal digit. -/
def isdigit (c : Char) : Bool := 48 ≤ c.toNat && c.toNat ≤ 57

/-- Value of a run of decimal digits. -/
def digitsValue (ds : List Char) : Nat := ds.foldl (fun a d => 10 * a + (d.toNat - 48)) 0

namespace istringstream

/-- The constructor `std::istringstream ss(Line)`. -/
def new (Line : String) : istringstream := { buf := Line.data, fail := false }

/-- Extraction `ss >> str` for a `std::string`: skips white space, then takes the
characters up to the next white space.  At the end of the buffer the
extraction fails and the string is empty. -/
def getString (ss : istringstream) : String × istringstream :=
  if ss.fail then ("", ss)
  else
    match ss.buf.dropWhile isspace with
    | [] => ("", { buf := [], fail := true })
    | c :: cs =>
      (String.mk ((c :: cs).takeWhile (fun x => !isspace x)),
       { buf := (c :: cs).dropWhile (fun x => !isspace x), fail := false })

/-- Extraction `ss >> ch` for a `char`: skips white space, then takes one character. -/
def getChar (ss : istringstream) : productKey × istringstream :=
  if ss.fail then (Char.ofNat 0, ss)
  else
    match ss.buf.dropWhile isspace with
    | [] => (Char.ofNat 0, { buf := [], fail := true })
    | c :: cs => (c, { buf := cs, fail := false })

/-- Extraction `ss >> n` for an `unsigned`: skips white space, accepts one sign, then
takes the longest run of decimal digits.  No digit, or a value that does not
fit 32 bits, fails; a minus sign negates modulo `2^32`. -/
def getUnsigned (ss : istringstream) : Nat × istringstream :=
  if ss.fail then (0, ss)
  else
    let b := ss.buf.dropWhile isspace
    let signed : Bool × List Char :=
      match b with
      | c :: r => if c = '-' then (true, r) else if c = '+' then (false, r) else (false, b)
      | [] => (false, b)
    let ds := signed.2.takeWhile isdigit
    let rest := signed.2.dropWhile isdigit
    if ds.isEmpty then (0, { buf := rest, fail := true })
    else if UINT_MOD ≤ digitsValue ds then (UINT_MOD - 1, { buf := rest, fail := true })
    else
      ((if signed.1 then usub 0 (digitsValue ds) else digitsValue ds),
       { buf := rest, fail := false })

/-- The loop condition `ss >> product >> quantity`: the two values and the
stream afterwards when both extractions succeed. -/
def getPair (ss : istringstream) : Option (productKey × Nat × istringstream) :=
  let r1 := ss.getChar
  let r2 := r1.2.getUnsigned
  if r2.2.fail then none else some (r1.1, r2.1, r2.2)

/-- All pairs that `while( ss >> product >> quantity )` reads when nothing
leaves the loop early. -/
def readPairs : Nat → istringstream → List (productKey × Nat)
  | 0, _ => []
  | fuel + 1, ss =>
    match ss.getPair with
    | none => []
    | some (product, quantity, ss1) => (product, quantity) :: readPairs fuel ss1

end istringstream

/-- A line as the scans of `Check` and `Parse` see it: the stream token, the
header token and the (product, quantity) pairs after them. -/
structure Tokens where
  stream : String
  header : String
  pairs : List (productKey × Nat)
deriving DecidableEq, Repr

/-- The tokens of a line. -/
def tokenize (Line : String) : Tokens :=
  let r1 := (istringstream.new Line).getString
  let r2 := r1.2.getString
  { stream := r1.1, header := r2.1, pairs := r2.2.readPairs r2.2.buf.length }

/-! ## `class OrderParser` -/

/-- The processing engine: inventory and order log. -/
structure OrderParser where
  Inventory : Warehouse
  Log : OrderLog
deriving DecidableEq, Repr

namespace OrderParser

/-- The `while` loop of `Check` with the two statements after it.  The first
argument bounds the number of iterations. -/
def checkLoop (Inventory : Warehouse) : Nat → istringstream → Bool → Bool
  | 0, _, hasProduct => hasProduct
  | fuel + 1, ss, hasProduct =>
    match ss.getPair with
    | none => hasProduct
    | some (product, quantity, ss1) =>
      let hasProduct1 := if quantity > 0 then true else hasProduct
      if quantity > 5 then false
      else if !Inventory.CheckProduct product then false
      else checkLoop Inventory fuel ss1 hasProduct1

/-- Method `bool Check(std::string Line)`. -/
def Check (p : OrderParser) (Line : String) : Bool :=
  let r1 := (istringstream.new Line).getString
  let r2 := r1.2.getString
  if r1.1.length == 0 || r2.1.length == 0 then false
  else checkLoop p.Inventory r2.2.buf.length r2.2 false

/-- The default constructor `OrderParser()`. -/
def new : OrderParser :=
  { Inventory := (Warehouse.new.Store 'A' 3).Store 'B' 3, Log := OrderLog.new }

/-- The `while` loop of the constructor from a file. -/
def storeLoop : Nat → istringstream → Warehouse → Warehouse
  | 0, _, Inventory => Inventory
  | fuel + 1, ss, Inventory =>
    match ss.getPair with
    | none => Inventory
    | some (product, quantity, ss1) => storeLoop fuel ss1 (Inventory.Store product quantity)

/-- The constructor `OrderParser(std::string InventoryFilename)`.  The
argument is the first line that `std::getline` reads from the file, the empty
string when the file is missing or empty. -/
def ofInventoryLine (line : String) : OrderParser :=
  let ss := istringstream.new line
  { Inventory := storeLoop ss.buf.length ss Warehouse.new, Log := OrderLog.new }

/-- The `while` loop of `Parse`. -/
def parseLoop : Nat → istringstream → Order → Warehouse → Order × Warehouse
  | 0, _, order, Inventory => (order, Inventory)
  | fuel + 1, ss, order, Inventory =>
    match ss.getPair with
    | none => (order, Inventory)
    | some (product, quantity, ss1) =>
      let r := (OrderLine.new product quantity).Allocate Inventory
      parseLoop fuel ss1 (order.Add r.1) r.2

/-- Method `void Parse(std::string Line)`. -/
def Parse (p : OrderParser) (Line : String) : OrderParser :=
  if !p.Check Line then p
  else
    let r1 := (istringstream.new Line).getString
    let r2 := r1.2.getString
    let r := parseLoop r2.2.buf.length r2.2 (Order.new r1.1 r2.1) p.Inventory
    { Inventory := r.2, Log := p.Log.Add r.1 }

end OrderParser

/-- How a call of `ParseFile` on a file that does not grow any more ends. -/
inductive Outcome where
  /-- The inventory became empty: `Log.Dump(); return;`.  `report` is the text
  written, `unread` the lines of the file after the read position. -/
  | dumped (p : OrderParser) (report : String) (unread : List String)
  /-- Every line was read and the inventory is not empty: the `for(;;)` loop
  clears the stream state and calls `std::getline` again, for ever. -/
  | polling (p : OrderParser)
  /-- The file could not be opened: `if(! file) return;`. -/
  | notOpened (p : OrderParser)
deriving DecidableEq, Repr

namespace OrderParser

/-- The loop `while(std::getline(file,line))` inside `for(;;)`, on the lines
that `std::getline` delivers. -/
def tailLoop (p : OrderParser) : List String → Outcome
  | [] => .polling p
  | line :: rest =>
    let p1 := p.Parse line
    if p1.Inventory.IsEmpty then .dumped p1 p1.Log.Dump rest
    else tailLoop p1 rest

/-- Method `void ParseFile(std::string Filename)`.  The argument is the sequence of
lines of the file, `none` when the file cannot be opened. -/
def ParseFile (p : OrderParser) (file : Option (List String)) : Outcome :=
  match file with
  | none => .notOpened p
  | some lines => tailLoop p lines

/-- The engine after `Parse` was applied to each line in turn. -/
def parseAll (p : OrderParser) (lines : List String) : OrderParser := lines.foldl Parse p

end OrderParser

/-- Allocation of a list of (product, quantity) pairs in order against the live
inventory: the first pair is allocated against the given warehouse, every
further pair against the warehouse that the allocations before it have left.
The results in order, and the warehouse after the last allocation. -/
def allocateAll : List (productKey × Nat) → Warehouse → List OrderLine × Warehouse
  | [], Inventory => ([], Inventory)
  | (product, quantity) :: rest, Inventory =>
    let r := (OrderLine.new product quantity).Allocate Inventory
    let rs := allocateAll rest r.2
    (r.1 :: rs.1, rs.2)

/-- The keys of a map, in the order of its entries. -/
def keys (m : StoreMap) : List productKey := m.map Prod.fst

/-- The product a call is for. -/
def Op.key : Op → productKey
  | .store k _ => k
  | .pull k _ => k

/-- The call is a `Store` call for the product. -/
def Op.isStoreOf (Product : productKey) : Op → Bool
  | .store k _ => k == Product
  | .pull _ _ => false

/-- The call is a `Store` call. -/
def Op.isStore : Op → Bool
  | .store _ _ => true
  | .pull _ _ => false

/-- Sum of the counts of all `Store` calls of a sequence, as a natural number. -/
def storedSum : List Op → Nat
  | [] => 0
  | .store _ c :: rest => c + storedSum rest
  | .pull _ _ :: rest => storedSum rest

/-- Sum of the pulled quantities of the lines for one product. -/
def pulledOfLines (Product : productKey) : List OrderLine → Nat
  | [] => 0
  | l :: rest =>
    (if l.Product = Product then l.Pulled else 0) + pulledOfLines Product rest

/-- Sum of the pulled quantities of all lines. -/
def pulledLines : List OrderLine → Nat
  | [] => 0
  | l :: rest => l.Pulled + pulledLines rest

/-- Sum of the pulled quantities of all lines for one product in a list of
orders. -/
def pulledOf (Product : productKey) : List Order → Nat
  | [] => 0
  | o :: rest => pulledOfLines Product o.Lines + pulledOf Product rest

/-- Sum of the pulled quantities of all lines in a list of orders. -/
def pulledAll : List Order → Nat
  | [] => 0
  | o :: rest => pulledLines o.Lines + pulledAll rest

/-- The (product, quantity) pairs that the constructor
`OrderParser(std::string InventoryFilename)` reads from the stocking line. -/
def stockingPairs (line : String) : List (productKey × Nat) :=
  (istringstream.new line).readPairs (istringstream.new line).buf.length

/-- The total is the sum of the stock counts as natural numbers, without
wrap-around, and every stored number is a value of the type `unsigned`. -/
def Warehouse.Exact (w : Warehouse) : Prop :=
  w.InRange ∧ w.TotalInventory = sumStock w.Stores

instance (w : Warehouse) : Decidable w.Exact := by
  unfold Warehouse.Exact; infer_instance

end Shipwire

/-! # Theorems -/

namespace Shipwire

/-! ## The map -/

theorem find_subscript_self (m : StoreMap) (k : productKey) :
    find (subscript m k) k = some (value m k) := by
  induction m with
  | nil => simp [subscript, find, value]
  | cons e rest ih =>
    obtain ⟨k1, v1⟩ := e
    by_cases h : k = k1
    · simp [subscript, find, value, h]
    · simpa [subscript, find, value, h] using ih

theorem find_subscript_ne (m : StoreMap) (k j : productKey) (h : j ≠ k) :
    find (subscript m k) j = find m j := by
  induction m with
  | nil => simp [subscript, find, h]
  | cons e rest ih =>
    obtain ⟨k1, v1⟩ := e
    by_cases h1 : k = k1
    · simp [subscript, find, h1]
    · by_cases h2 : j = k1
      · simp [subscript, find, h1, h2]
      · simpa [subscript, find, h1, h2] using ih

theorem subscript_of_isSome (m : StoreMap) (k : productKey) (h : (find m k).isSome = true) :
    subscript m k = m := by
  induction m with
  | nil => simp [find] at h
  | cons e rest ih =>
    obtain ⟨k1, v1⟩ := e
    by_cases h1 : k = k1
    · simp [subscript, h1]
    · simp only [find, h1, if_false] at h
      simp [subscript, h1, ih h]

theorem value_subscript (m : StoreMap) (k j : productKey) :
    value (subscript m k) j = value m j := by
  by_cases h : j = k
  · subst h; simp [value, find_subscript_self]
  · simp [value, find_subscript_ne m k j h]

theorem sumStock_subscript (m : StoreMap) (k : productKey) :
    sumStock (subscript m k) = sumStock m := by
  induction m with
  | nil => simp [subscript, sumStock]
  | cons e rest ih =>
    obtain ⟨k1, v1⟩ := e
    by_cases h1 : k = k1
    · simp [subscript, h1]
    · simp only [sumStock] at ih
      simp [subscript, h1, sumStock, ih]

theorem mem_subscript (m : StoreMap) (k : productKey) (e : productKey × Nat)
    (h : e ∈ subscript m k) : e ∈ m ∨ e = (k, 0) := by
  induction m with
  | nil => simpa [subscript] using h
  | cons e1 rest ih =>
    obtain ⟨k1, v1⟩ := e1
    by_cases h1 : k = k1
    · simp only [subscript, h1, if_true] at h
      exact Or.inl h
    · simp only [subscript, h1, if_false, List.mem_cons] at h
      rcases h with h | h
      · exact Or.inl (by simp [h])
      · rcases ih h with h2 | h2
        · exact Or.inl (by simp [h2])
        · exact Or.inr h2

theorem find_assign_self (m : StoreMap) (k : productKey) (x : Nat)
    (h : (find m k).isSome = true) : find (assign m k x) k = some x := by
  induction m with
  | nil => simp [find] at h
  | cons e rest ih =>
    obtain ⟨k1, v1⟩ := e
    by_cases h1 : k = k1
    · simp [assign, find, h1]
    · simp only [find, h1, if_false] at h
      simpa [assign, find, h1] using ih h

theorem find_assign_ne (m : StoreMap) (k j : productKey) (x : Nat) (h : j ≠ k) :
    find (assign m k x) j = find m j := by
  induction m with
  | nil => simp [assign, find]
  | cons e rest ih =>
    obtain ⟨k1, v1⟩ := e
    by_cases h1 : k = k1
    · subst h1; simp [assign, find, h]
    · by_cases h2 : j = k1
      · simp [assign, find, h1, h2]
      · simpa [assign, find, h1, h2] using ih

theorem isSome_find_assign (m : StoreMap) (k j : productKey) (x : Nat) :
    (find (assign m k x) j).isSome = (find m j).isSome := by
  induction m with
  | nil => simp [assign, find]
  | cons e rest ih =>
    obtain ⟨k1, v1⟩ := e
    by_cases h1 : k = k1
    · by_cases h2 : j = k1
      · simp [assign, find, h1, h2]
      · simp [assign, find, h1, h2]
    · by_cases h2 : j = k1
      · simp [assign, find, h1, h2]
      · simpa [assign, find, h1, h2] using ih

theorem sumStock_assign (m : StoreMap) (k : productKey) (x : Nat)
    (h : (find m k).isSome = true) :
    sumStock (assign m k x) + value m k = sumStock m + x := by
  induction m with
  | nil => simp [find] at h
  | cons e rest ih =>
    obtain ⟨k1, v1⟩ := e
    by_cases h1 : k = k1
    · simp [assign, find, value, sumStock, h1]; omega
    · simp only [find, h1, if_false] at h
      have := ih h
      simp only [sumStock, value] at this
      simp [assign, find, value, sumStock, h1]; omega

theorem mem_assign (m : StoreMap) (k : productKey) (x : Nat) (e : productKey × Nat)
    (h : e ∈ assign m k x) : e ∈ m ∨ e = (k, x) := by
  induction m with
  | nil => simp [assign] at h
  | cons e1 rest ih =>
    obtain ⟨k1, v1⟩ := e1
    by_cases h1 : k = k1
    · simp only [assign, h1, if_true, List.mem_cons] at h
      rcases h with h | h
      · exact Or.inr (by simp [h, h1])
      · exact Or.inl (by simp [h])
    · simp only [assign, h1, if_false, List.mem_cons] at h
      rcases h with h | h
      · exact Or.inl (by simp [h])
      · rcases ih h with h2 | h2
        · exact Or.inl (by simp [h2])
        · exact Or.inr h2

theorem find_mem (m : StoreMap) (k : productKey) (v : Nat) (h : find m k = some v) :
    (k, v) ∈ m := by
  induction m with
  | nil => simp [find] at h
  | cons e rest ih =>
    obtain ⟨k1, v1⟩ := e
    by_cases h1 : k = k1
    · simp only [find, h1, if_true, Option.some.injEq] at h
      simp [h1, h]
    · simp only [find, h1, if_false] at h
      simp [ih h]

theorem value_le_sumStock (m : StoreMap) (k : productKey) : value m k ≤ sumStock m := by
  induction m with
  | nil => simp [value, find]
  | cons e rest ih =>
    obtain ⟨k1, v1⟩ := e
    by_cases h1 : k = k1
    · simp [value, find, sumStock, h1]
    · simp only [value, sumStock] at ih
      simp only [value, find, h1, if_false, sumStock, List.map_cons, List.sum_cons]
      omega

/-! ## Unsigned arithmetic -/

theorem usub_of_le (a b : Nat) (hb : b ≤ a) (ha : a < UINT_MOD) : usub a b = a - b := by
  unfold usub
  unfold UINT_MOD at *
  omega

theorem usub_int (a b : Nat) :
    ((usub a b : Nat) : Int) = ((a : Int) - (b : Int)) % 4294967296 := by
  unfold usub UINT_MOD
  omega

theorem usub_lt (a b : Nat) : usub a b < UINT_MOD := by
  unfold usub
  exact Nat.mod_lt _ (by unfold UINT_MOD; omega)

theorem uadd_lt (a b : Nat) : uadd a b < UINT_MOD := by
  unfold uadd
  exact Nat.mod_lt _ (by unfold UINT_MOD; omega)

/-! ## `Warehouse::Store` and `Warehouse::Pull` -/

namespace Warehouse

theorem stock_lt_of_inRange (w : Warehouse) (k : productKey) (hw : w.InRange) :
    w.stock k < UINT_MOD := by
  unfold stock value
  cases h : find w.Stores k with
  | none => simp [UINT_MOD]
  | some v => simpa using hw.2 _ (find_mem _ _ _ h)

theorem Pull_fst (w : Warehouse) (k : productKey) (c : Nat) :
    (w.Pull k c).1 = decide (c ≤ w.stock k) := by
  unfold Pull stock
  simp only [value_subscript]
  by_cases h : value w.Stores k < c
  · simp [h]
  · simp [h, Nat.le_of_not_lt h]

theorem Pull_of_lt (w : Warehouse) (k : productKey) (c : Nat) (h : w.stock k < c) :
    w.Pull k c = (false, { w with Stores := subscript w.Stores k }) := by
  unfold stock at h
  simp [Pull, value_subscript, h]

theorem Pull_of_le (w : Warehouse) (k : productKey) (c : Nat) (h : c ≤ w.stock k) :
    w.Pull k c =
      (true, { Stores := assign (subscript w.Stores k) k (usub (w.stock k) c)
               TotalInventory := usub w.TotalInventory c }) := by
  unfold stock at h
  simp [Pull, value_subscript, Nat.not_lt.mpr h, stock]

/-- A failed pull of a product that has an entry changes nothing. -/
theorem Pull_of_lt_of_checkProduct (w : Warehouse) (k : productKey) (c : Nat)
    (hk : w.CheckProduct k = true) (h : w.stock k < c) : w.Pull k c = (false, w) := by
  rw [Pull_of_lt w k c h, subscript_of_isSome _ _ hk]

/-- A failed pull changes neither the total nor the stock read for any product,
and an entry is gained by the pulled product at most. -/
theorem Pull_of_lt_frame (w : Warehouse) (k : productKey) (c : Nat) (h : w.stock k < c) :
    (w.Pull k c).2.TotalInventory = w.TotalInventory ∧
      (∀ j, (w.Pull k c).2.stock j = w.stock j) ∧
      (∀ j, j ≠ k → (w.Pull k c).2.CheckProduct j = w.CheckProduct j) := by
  rw [Pull_of_lt w k c h]
  refine ⟨rfl, fun j => ?_, fun j hj => ?_⟩
  · simp [stock, value_subscript]
  · simp [CheckProduct, find_subscript_ne _ _ _ hj]

theorem Pull_checkProduct (w : Warehouse) (k : productKey) (c : Nat) (j : productKey)
    (hj : w.CheckProduct j = true) : (w.Pull k c).2.CheckProduct j = true := by
  have key : (find (subscript w.Stores k) j).isSome = true := by
    by_cases hjk : j = k
    · subst hjk; simp [find_subscript_self]
    · simpa [find_subscript_ne _ _ _ hjk] using hj
  unfold Pull
  by_cases h : value (subscript w.Stores k) k < c
  · simpa [h, CheckProduct] using key
  · simpa [h, CheckProduct, isSome_find_assign] using key

theorem Pull_inRange (w : Warehouse) (k : productKey) (c : Nat) (hw : w.InRange) :
    (w.Pull k c).2.InRange := by
  unfold Pull
  by_cases h : value (subscript w.Stores k) k < c
  · simp only [h, if_true]
    refine ⟨hw.1, fun e he => ?_⟩
    rcases mem_subscript _ _ _ he with h1 | h1
    · exact hw.2 e h1
    · simp [h1, UINT_MOD]
  · simp only [h, if_false]
    refine ⟨usub_lt _ _, fun e he => ?_⟩
    rcases mem_assign _ _ _ _ he with h1 | h1
    · rcases mem_subscript _ _ _ h1 with h2 | h2
      · exact hw.2 e h2
      · simp [h2, UINT_MOD]
    · simpa [h1] using usub_lt _ _

theorem Store_inRange (w : Warehouse) (k : productKey) (c : Nat) (hw : w.InRange) :
    (w.Store k c).InRange := by
  unfold Store
  refine ⟨uadd_lt _ _, fun e he => ?_⟩
  rcases mem_assign _ _ _ _ he with h1 | h1
  · rcases mem_subscript _ _ _ h1 with h2 | h2
    · exact hw.2 e h2
    · simp [h2, UINT_MOD]
  · simpa [h1] using uadd_lt _ _

theorem Store_totalIsSumMod (w : Warehouse) (k : productKey) (c : Nat)
    (h : w.TotalIsSumMod) : (w.Store k c).TotalIsSumMod := by
  unfold TotalIsSumMod at *
  have h1 := sumStock_assign (subscript w.Stores k) k
    (uadd (value (subscript w.Stores k) k) c) (by simp [find_subscript_self])
  have h2 := value_le_sumStock w.Stores k
  simp only [value_subscript, sumStock_subscript] at h1
  simp only [Store, value_subscript]
  rw [h]
  unfold uadd at *
  unfold UINT_MOD at *
  omega

theorem Pull_totalIsSumMod (w : Warehouse) (k : productKey) (c : Nat)
    (hw : w.InRange) (h : w.TotalIsSumMod) : (w.Pull k c).2.TotalIsSumMod := by
  by_cases hc : w.stock k < c
  · rw [Pull_of_lt w k c hc]
    simpa [TotalIsSumMod, sumStock_subscript] using h
  · have hle : c ≤ w.stock k := Nat.le_of_not_lt hc
    rw [Pull_of_le w k c hle]
    unfold TotalIsSumMod at *
    have h1 := sumStock_assign (subscript w.Stores k) k (usub (w.stock k) c)
      (by simp [find_subscript_self])
    have h2 := value_le_sumStock w.Stores k
    have h3 := stock_lt_of_inRange w k hw
    simp only [value_subscript, sumStock_subscript] at h1
    rw [usub_of_le _ _ hle h3] at h1 ⊢
    simp only
    rw [h]
    unfold stock at *
    unfold usub
    unfold UINT_MOD at *
    omega

end Warehouse

theorem runOps_append (w : Warehouse) (xs ys : List Op) :
    runOps w (xs ++ ys) = runOps (runOps w xs) ys := by
  simp [runOps, List.foldl_append]

theorem runOps_invariant (w : Warehouse) (ops : List Op)
    (hw : w.InRange) (h : w.TotalIsSumMod) :
    (runOps w ops).InRange ∧ (runOps w ops).TotalIsSumMod := by
  induction ops generalizing w with
  | nil => exact ⟨hw, h⟩
  | cons o rest ih =>
    cases o with
    | store k c =>
      exact ih (w.Store k c) (Warehouse.Store_inRange w k c hw)
        (Warehouse.Store_totalIsSumMod w k c h)
    | pull k c =>
      exact ih (w.Pull k c).2 (Warehouse.Pull_inRange w k c hw)
        (Warehouse.Pull_totalIsSumMod w k c hw h)

/-! ## `OrderLine::Allocate` -/

theorem OrderLine.Allocate_of_pull (l : OrderLine) (Inventory : Warehouse)
    (h : (Inventory.Pull l.Product l.Requested).1 = true) :
    l.Allocate Inventory
      = ({ l with Pulled := l.Requested, Backlog := 0 },
         (Inventory.Pull l.Product l.Requested).2) := by
  unfold OrderLine.Allocate
  simp [h]

theorem OrderLine.Allocate_of_not_pull (l : OrderLine) (Inventory : Warehouse)
    (h : (Inventory.Pull l.Product l.Requested).1 = false) :
    l.Allocate Inventory
      = ({ l with Pulled := 0, Backlog := l.Requested },
         (Inventory.Pull l.Product l.Requested).2) := by
  unfold OrderLine.Allocate
  simp [h]

theorem OrderLine.Allocate_snd (l : OrderLine) (Inventory : Warehouse) :
    (l.Allocate Inventory).2 = (Inventory.Pull l.Product l.Requested).2 := by
  cases h : (Inventory.Pull l.Product l.Requested).1
  · rw [OrderLine.Allocate_of_not_pull l Inventory h]
  · rw [OrderLine.Allocate_of_pull l Inventory h]

/-! ## Claims on `Warehouse` and `OrderLine` -/

/-- C1 (evaluation at the failing input): with stock `A = 3` only, `Pull('Z', 1)`
finds less stock than asked (none) and returns false, yet the store is not left
as it was: `Stores['Z']` in the comparison has inserted an entry for `Z`, so
`CheckProduct('Z')` is false before the call and true after it. -/
theorem Pull_failure_inserts_entry :
    (Warehouse.new.Store 'A' 3).stock 'Z' < 1 ∧
      ((Warehouse.new.Store 'A' 3).Pull 'Z' 1).1 = false ∧
      (Warehouse.new.Store 'A' 3).CheckProduct 'Z' = false ∧
      ((Warehouse.new.Store 'A' 3).Pull 'Z' 1).2.CheckProduct 'Z' = true ∧
      ((Warehouse.new.Store 'A' 3).Pull 'Z' 1).2.Stores = [('A', 3), ('Z', 0)] ∧
      ((Warehouse.new.Store 'A' 3).Pull 'Z' 1).2 ≠ Warehouse.new.Store 'A' 3 := by
  decide

/-- C2 (counterexample): after `Store('A', 5)` and `Store('B', 4294967291)` the
total has wrapped to 0 while `A` holds 5; `Pull('A', 5)` succeeds and the total
becomes 4294967291, which is not the old total minus 5. -/
theorem Pull_total_not_old_minus_count :
    ((Warehouse.new.Store 'A' 5).Store 'B' 4294967291).InRange ∧
      5 ≤ ((Warehouse.new.Store 'A' 5).Store 'B' 4294967291).stock 'A' ∧
      ((Warehouse.new.Store 'A' 5).Store 'B' 4294967291).TotalInventory = 0 ∧
      (((Warehouse.new.Store 'A' 5).Store 'B' 4294967291).Pull 'A' 5).1 = true ∧
      (((Warehouse.new.Store 'A' 5).Store 'B' 4294967291).Pull 'A' 5).2.TotalInventory
        = 4294967291 ∧
      ((((Warehouse.new.Store 'A' 5).Store 'B' 4294967291).Pull 'A' 5).2.TotalInventory : Int)
        ≠ (((Warehouse.new.Store 'A' 5).Store 'B' 4294967291).TotalInventory : Int) - 5 := by
  decide

/-- C2 (amended): in a warehouse of 32-bit values, when the stock of the product
is at least `Count`, `Pull` returns true, the stock of the product becomes the
old stock minus `Count`, the total becomes the old total minus `Count` modulo
`2^32` (exactly the old total minus `Count` when `Count` is at most the old
total), and the stock of every other product is unchanged. -/
theorem Pull_sufficient (w : Warehouse) (UnitType : productKey) (Count : Nat)
    (hw : w.InRange) (hc : Count ≤ w.stock UnitType) :
    (w.Pull UnitType Count).1 = true ∧
      (w.Pull UnitType Count).2.stock UnitType = w.stock UnitType - Count ∧
      (((w.Pull UnitType Count).2.TotalInventory : Nat) : Int)
        = ((w.TotalInventory : Int) - (Count : Int)) % 4294967296 ∧
      (Count ≤ w.TotalInventory →
        (w.Pull UnitType Count).2.TotalInventory = w.TotalInventory - Count) ∧
      ∀ other, other ≠ UnitType → (w.Pull UnitType Count).2.stock other = w.stock other := by
  have h3 := Warehouse.stock_lt_of_inRange w UnitType hw
  rw [Warehouse.Pull_of_le w UnitType Count hc]
  refine ⟨rfl, ?_, usub_int _ _, fun hle => usub_of_le _ _ hle hw.1, fun other ho => ?_⟩
  · have e := usub_of_le _ _ hc h3
    simp only [Warehouse.stock, value] at e ⊢
    simp [find_assign_self, find_subscript_self, e]
  · simp [Warehouse.stock, value, find_assign_ne _ _ _ _ ho, find_subscript_ne _ _ _ ho]

/-- C2 (witness): stock `A = 3`, `Pull('A', 2)`. -/
theorem Pull_sufficient_witness :
    (Warehouse.new.Store 'A' 3).InRange ∧ 2 ≤ (Warehouse.new.Store 'A' 3).stock 'A' ∧
      ((Warehouse.new.Store 'A' 3).Pull 'A' 2).1 = true ∧
      ((Warehouse.new.Store 'A' 3).Pull 'A' 2).2.stock 'A'
        = (Warehouse.new.Store 'A' 3).stock 'A' - 2 :=
  ⟨by decide, by decide,
    (Pull_sufficient (Warehouse.new.Store 'A' 3) 'A' 2 (by decide) (by decide)).1,
    (Pull_sufficient (Warehouse.new.Store 'A' 3) 'A' 2 (by decide) (by decide)).2.1⟩

/-- C3 (counterexample): after `Store('A', 4294967295)` and `Store('B', 1)` on a
fresh warehouse the total is 0 and the stock counts add up to 4294967296. -/
theorem total_ne_sum_after_wrap :
    (Op.store 'A' 4294967295).InRange ∧ (Op.store 'B' 1).InRange ∧
      (runOps Warehouse.new [Op.store 'A' 4294967295, Op.store 'B' 1]).TotalInventory = 0 ∧
      sumStock (runOps Warehouse.new [Op.store 'A' 4294967295, Op.store 'B' 1]).Stores
        = 4294967296 ∧
      (runOps Warehouse.new [Op.store 'A' 4294967295, Op.store 'B' 1]).TotalInventory
        ≠ sumStock (runOps Warehouse.new [Op.store 'A' 4294967295, Op.store 'B' 1]).Stores := by
  decide

/-- C3 (amended): after every finite sequence of `Store` and `Pull` calls on a
fresh warehouse, with arbitrary products and counts, the total equals the sum of
all stock counts modulo `2^32`; every stored number is a 32-bit value.  Hence
the total equals the sum whenever the sum is below `2^32`. -/
theorem total_eq_sum_mod (ops : List Op) :
    (runOps Warehouse.new ops).TotalInventory
        = sumStock (runOps Warehouse.new ops).Stores % 4294967296 ∧
      (runOps Warehouse.new ops).InRange := by
  have h := runOps_invariant Warehouse.new ops (by decide)
    (by simp [Warehouse.TotalIsSumMod, Warehouse.new, sumStock])
  exact ⟨h.2, h.1⟩

/-- C4 (counterexample): a request for 0 units is allocated with
`Pulled = Requested` and `Backlog = Requested` both true.  Such a line results
from `Parse` of the valid line `S1 H1 A 0 B 1`. -/
theorem Allocate_zero_request_both :
    ((OrderLine.new 'A' 0).Allocate (Warehouse.new.Store 'A' 3)).1.Pulled
        = ((OrderLine.new 'A' 0).Allocate (Warehouse.new.Store 'A' 3)).1.Requested ∧
      ((OrderLine.new 'A' 0).Allocate (Warehouse.new.Store 'A' 3)).1.Backlog
        = ((OrderLine.new 'A' 0).Allocate (Warehouse.new.Store 'A' 3)).1.Requested ∧
      (OrderParser.new.Parse "S1 H1 A 0 B 1").Log.Orders
        = [{ Stream := "S1", Header := "H1",
             Lines := [{ Product := 'A', Requested := 0, Pulled := 0, Backlog := 0 },
                       { Product := 'B', Requested := 1, Pulled := 1, Backlog := 0 }] }] := by
  decide

/-- C4 (amended): after `Allocate` the line keeps its product and request,
`Pulled + Backlog = Requested`, the line is either fully pulled
(`Pulled = Requested`, `Backlog = 0`) or fully backlogged (`Pulled = 0`,
`Backlog = Requested`), and `Pulled = Requested` and `Backlog = Requested` hold
together exactly when `Requested = 0`; so for a positive request exactly one of
them holds. -/
theorem Allocate_all_or_nothing (l : OrderLine) (Inventory : Warehouse) :
    (l.Allocate Inventory).1.Product = l.Product ∧
      (l.Allocate Inventory).1.Requested = l.Requested ∧
      (l.Allocate Inventory).1.Pulled + (l.Allocate Inventory).1.Backlog
        = (l.Allocate Inventory).1.Requested ∧
      (((l.Allocate Inventory).1.Pulled = (l.Allocate Inventory).1.Requested ∧
          (l.Allocate Inventory).1.Backlog = 0) ∨
        ((l.Allocate Inventory).1.Pulled = 0 ∧
          (l.Allocate Inventory).1.Backlog = (l.Allocate Inventory).1.Requested)) ∧
      (((l.Allocate Inventory).1.Pulled = (l.Allocate Inventory).1.Requested ∧
          (l.Allocate Inventory).1.Backlog = (l.Allocate Inventory).1.Requested)
        ↔ l.Requested = 0) := by
  by_cases h : (Inventory.Pull l.Product l.Requested).1 = true
  · rw [OrderLine.Allocate_of_pull l Inventory h]
    exact ⟨rfl, rfl, by simp, Or.inl ⟨rfl, rfl⟩,
      ⟨fun hh => hh.2.symm, fun hh => ⟨rfl, hh.symm⟩⟩⟩
  · rw [OrderLine.Allocate_of_not_pull l Inventory (by simpa using h)]
    exact ⟨rfl, rfl, by simp, Or.inr ⟨rfl, rfl⟩,
      ⟨fun hh => hh.1.symm, fun hh => ⟨hh.symm, rfl⟩⟩⟩

/-! ## The scans of `Check` and `Parse` -/

namespace OrderParser

theorem checkLoop_zero (Inventory : Warehouse) (ss : istringstream) (hasProduct : Bool) :
    checkLoop Inventory 0 ss hasProduct = hasProduct := rfl

theorem checkLoop_none (Inventory : Warehouse) (fuel : Nat) (ss : istringstream)
    (hasProduct : Bool) (h : ss.getPair = none) :
    checkLoop Inventory (fuel + 1) ss hasProduct = hasProduct := by
  simp [checkLoop, h]

theorem checkLoop_some (Inventory : Warehouse) (fuel : Nat) (ss ss1 : istringstream)
    (hasProduct : Bool) (product : productKey) (quantity : Nat)
    (h : ss.getPair = some (product, quantity, ss1)) :
    checkLoop Inventory (fuel + 1) ss hasProduct
      = if quantity > 5 then false
        else if !Inventory.CheckProduct product then false
        else checkLoop Inventory fuel ss1 (if quantity > 0 then true else hasProduct) := by
  simp [checkLoop, h]

theorem readPairs_none (fuel : Nat) (ss : istringstream) (h : ss.getPair = none) :
    ss.readPairs (fuel + 1) = [] := by
  simp [istringstream.readPairs, h]

theorem readPairs_some (fuel : Nat) (ss ss1 : istringstream) (product : productKey)
    (quantity : Nat) (h : ss.getPair = some (product, quantity, ss1)) :
    ss.readPairs (fuel + 1) = (product, quantity) :: ss1.readPairs fuel := by
  simp [istringstream.readPairs, h]

/-- The loop of `Check` accepts exactly when every pair it can read has a
quantity of at most 5 and a known product, and a positive quantity was seen. -/
theorem checkLoop_iff (Inventory : Warehouse) (fuel : Nat) (ss : istringstream)
    (hasProduct : Bool) :
    checkLoop Inventory fuel ss hasProduct = true ↔
      (∀ pq ∈ ss.readPairs fuel, pq.2 ≤ 5 ∧ Inventory.CheckProduct pq.1 = true) ∧
        (hasProduct = true ∨ ∃ pq ∈ ss.readPairs fuel, 0 < pq.2) := by
  induction fuel generalizing ss hasProduct with
  | zero => simp [checkLoop, istringstream.readPairs]
  | succ n ih =>
    cases h : ss.getPair with
    | none => simp [checkLoop_none _ _ _ _ h, readPairs_none _ _ h]
    | some t =>
      obtain ⟨product, quantity, ss1⟩ := t
      rw [checkLoop_some _ _ _ _ _ _ _ h, readPairs_some _ _ _ _ _ h]
      by_cases hq : quantity > 5
      · simp only [hq, if_true, Bool.false_eq_true, false_iff]
        intro hh
        have := (hh.1 (product, quantity) (List.mem_cons_self _ _)).1
        simp at this
        omega
      · by_cases hc : Inventory.CheckProduct product = true
        · simp only [hq, if_false, hc, Bool.not_true, Bool.false_eq_true, ih]
          by_cases hz : quantity > 0
          · simp only [hz, if_true, true_or, and_true]
            constructor
            · intro hh
              refine ⟨fun pq hpq => ?_, Or.inr ⟨(product, quantity), List.mem_cons_self _ _, hz⟩⟩
              rcases List.mem_cons.mp hpq with h1 | h1
              · subst h1; exact ⟨Nat.le_of_not_lt hq, hc⟩
              · exact hh pq h1
            · intro hh pq hpq
              exact hh.1 pq (List.mem_cons_of_mem _ hpq)
          · simp only [hz, if_false]
            constructor
            · intro hh
              refine ⟨fun pq hpq => ?_, ?_⟩
              · rcases List.mem_cons.mp hpq with h1 | h1
                · subst h1; exact ⟨Nat.le_of_not_lt hq, hc⟩
                · exact hh.1 pq h1
              · rcases hh.2 with h1 | ⟨pq, hpq, h1⟩
                · exact Or.inl h1
                · exact Or.inr ⟨pq, List.mem_cons_of_mem _ hpq, h1⟩
            · intro hh
              refine ⟨fun pq hpq => hh.1 pq (List.mem_cons_of_mem _ hpq), ?_⟩
              rcases hh.2 with h1 | ⟨pq, hpq, h1⟩
              · exact Or.inl h1
              · rcases List.mem_cons.mp hpq with h2 | h2
                · subst h2; exact absurd h1 hz
                · exact Or.inr ⟨pq, h2, h1⟩
        · simp only [hq, if_false, hc, Bool.not_false, if_true, Bool.false_eq_true,
            false_iff]
          intro hh
          exact hc (hh.1 (product, quantity) (List.mem_cons_self _ _)).2

theorem Check_eq (p : OrderParser) (Line : String) :
    p.Check Line
      = if (tokenize Line).stream.length == 0 || (tokenize Line).header.length == 0 then false
        else checkLoop p.Inventory
          ((istringstream.new Line).getString.2.getString.2.buf.length)
          ((istringstream.new Line).getString.2.getString.2) false := rfl

theorem tokenize_pairs (Line : String) :
    (tokenize Line).pairs
      = (istringstream.new Line).getString.2.getString.2.readPairs
          ((istringstream.new Line).getString.2.getString.2.buf.length) := rfl

/-- Function `Check` in terms of the tokens of the line. -/
theorem Check_iff (p : OrderParser) (Line : String) :
    p.Check Line = true ↔
      (0 < (tokenize Line).stream.length ∧ 0 < (tokenize Line).header.length) ∧
        (∀ pq ∈ (tokenize Line).pairs, pq.2 ≤ 5) ∧
        (∀ pq ∈ (tokenize Line).pairs, p.Inventory.CheckProduct pq.1 = true) ∧
        (∃ pq ∈ (tokenize Line).pairs, 0 < pq.2) := by
  rw [Check_eq, tokenize_pairs]
  by_cases h1 : (tokenize Line).stream.length = 0
  · simp [h1]
  · by_cases h2 : (tokenize Line).header.length = 0
    · simp [h2]
    · have e : ((tokenize Line).stream.length == 0 || (tokenize Line).header.length == 0)
          = false := by simp [h1, h2]
      rw [e]
      simp only [Bool.false_eq_true, if_false, checkLoop_iff, false_or]
      constructor
      · intro hh
        exact ⟨⟨Nat.pos_of_ne_zero h1, Nat.pos_of_ne_zero h2⟩,
          fun pq hpq => (hh.1 pq hpq).1, fun pq hpq => (hh.1 pq hpq).2, hh.2⟩
      · intro hh
        exact ⟨fun pq hpq => ⟨hh.2.1 pq hpq, hh.2.2.1 pq hpq⟩, hh.2.2.2⟩

end OrderParser

/-! ## The iteration bound of the scans is never reached -/

namespace istringstream

theorem length_dropWhile_le (f : Char → Bool) (l : List Char) :
    (l.dropWhile f).length ≤ l.length :=
  (List.dropWhile_sublist f).length_le

theorem getChar_shrinks (ss : istringstream) (h : ss.getChar.2.fail = false) :
    ss.getChar.2.buf.length < ss.buf.length := by
  unfold getChar at h ⊢
  by_cases hf : ss.fail = true
  · simp [hf] at h
  · have hlen := length_dropWhile_le isspace ss.buf
    simp only [hf, Bool.false_eq_true, if_false] at h ⊢
    cases hd : ss.buf.dropWhile isspace with
    | nil => simp [hd] at h
    | cons c cs =>
      rw [hd] at hlen
      simp only [List.length_cons] at hlen
      simp only
      omega

theorem getUnsigned_fail (ss : istringstream) (h : ss.fail = true) :
    ss.getUnsigned.2.fail = true := by
  simp [getUnsigned, h]

theorem getUnsigned_length_le (ss : istringstream) :
    ss.getUnsigned.2.buf.length ≤ ss.buf.length := by
  unfold getUnsigned
  by_cases hf : ss.fail = true
  · simp [hf]
  · simp only [hf, Bool.false_eq_true, if_false]
    have hlen := length_dropWhile_le isspace ss.buf
    have key : ∀ sg : Bool × List Char, sg.2.length ≤ (ss.buf.dropWhile isspace).length →
        (sg.2.dropWhile isdigit).length ≤ ss.buf.length := fun sg hsg =>
      le_trans (length_dropWhile_le isdigit sg.2) (le_trans hsg hlen)
    have hs : (match ss.buf.dropWhile isspace with
        | c :: r => if c = '-' then (true, r) else if c = '+' then (false, r)
          else (false, ss.buf.dropWhile isspace)
        | [] => (false, ss.buf.dropWhile isspace)).2.length
          ≤ (ss.buf.dropWhile isspace).length := by
      cases hd : ss.buf.dropWhile isspace with
      | nil => simp
      | cons c r =>
        simp only
        split
        · simp
        · split <;> simp
    split
    · exact key _ hs
    · split
      · exact key _ hs
      · exact key _ hs

theorem getPair_shrinks (ss ss1 : istringstream) (product : productKey) (quantity : Nat)
    (h : ss.getPair = some (product, quantity, ss1)) : ss1.buf.length < ss.buf.length := by
  unfold getPair at h
  by_cases hf : ss.getChar.2.getUnsigned.2.fail = true
  · simp [hf] at h
  · simp only [hf, Bool.false_eq_true, if_false, Option.some.injEq, Prod.mk.injEq] at h
    obtain ⟨_, _, h3⟩ := h
    subst h3
    have h1 : ss.getChar.2.fail = false := by
      cases hc : ss.getChar.2.fail with
      | false => rfl
      | true => exact absurd (getUnsigned_fail _ hc) hf
    exact lt_of_le_of_lt (getUnsigned_length_le _) (getChar_shrinks ss h1)

/-- More iterations than the buffer has characters read no further pair. -/
theorem readPairs_stable (n m : Nat) (ss : istringstream)
    (hn : ss.buf.length ≤ n) (hm : ss.buf.length ≤ m) :
    ss.readPairs n = ss.readPairs m := by
  induction n generalizing m ss with
  | zero =>
    cases m with
    | zero => rfl
    | succ m1 =>
      cases h : ss.getPair with
      | none => simp [readPairs, h]
      | some t =>
        obtain ⟨product, quantity, ss1⟩ := t
        have := getPair_shrinks _ _ _ _ h
        omega
  | succ n1 ih =>
    cases h : ss.getPair with
    | none =>
      cases m with
      | zero => simp [readPairs, h]
      | succ m1 => simp [readPairs, h]
    | some t =>
      obtain ⟨product, quantity, ss1⟩ := t
      have hlt := getPair_shrinks _ _ _ _ h
      cases m with
      | zero => omega
      | succ m1 =>
        simp only [readPairs, h]
        rw [ih m1 ss1 (by omega) (by omega)]

end istringstream

namespace OrderParser

/-- The loop of `Parse` allocates the pairs it reads one after the other and
appends the results to the order. -/
theorem parseLoop_eq (fuel : Nat) (ss : istringstream) (order : Order) (Inventory : Warehouse) :
    parseLoop fuel ss order Inventory
      = ({ order with Lines := order.Lines ++ (allocateAll (ss.readPairs fuel) Inventory).1 },
         (allocateAll (ss.readPairs fuel) Inventory).2) := by
  induction fuel generalizing ss order Inventory with
  | zero => simp [parseLoop, istringstream.readPairs, allocateAll]
  | succ n ih =>
    cases h : ss.getPair with
    | none => simp [parseLoop, istringstream.readPairs, allocateAll, h]
    | some t =>
      obtain ⟨product, quantity, ss1⟩ := t
      simp [parseLoop, istringstream.readPairs, allocateAll, h, ih, Order.Add]

/-- The loop of the constructor stores the pairs it reads one after the other. -/
theorem storeLoop_eq (fuel : Nat) (ss : istringstream) (Inventory : Warehouse) :
    storeLoop fuel ss Inventory
      = (ss.readPairs fuel).foldl (fun w pq => w.Store pq.1 pq.2) Inventory := by
  induction fuel generalizing ss Inventory with
  | zero => simp [storeLoop, istringstream.readPairs]
  | succ n ih =>
    cases h : ss.getPair with
    | none => simp [storeLoop, istringstream.readPairs, h]
    | some t =>
      obtain ⟨product, quantity, ss1⟩ := t
      simp [storeLoop, istringstream.readPairs, h, ih]

/-- The scan of `Check` gives the same answer for every bound that is at least
the length of the buffer. -/
theorem checkLoop_stable (Inventory : Warehouse) (n : Nat) (ss : istringstream)
    (hasProduct : Bool) (hn : ss.buf.length ≤ n) :
    checkLoop Inventory n ss hasProduct
      = checkLoop Inventory ss.buf.length ss hasProduct := by
  have e := istringstream.readPairs_stable n ss.buf.length ss hn (le_refl _)
  have h1 := checkLoop_iff Inventory n ss hasProduct
  have h2 := checkLoop_iff Inventory ss.buf.length ss hasProduct
  rw [e] at h1
  have h3 := h1.trans h2.symm
  cases h4 : checkLoop Inventory ss.buf.length ss hasProduct with
  | true => exact h3.mpr h4
  | false =>
    cases h5 : checkLoop Inventory n ss hasProduct with
    | false => rfl
    | true => rw [h3.mp h5] at h4; exact h4

/-- The scan of `Parse` gives the same result for every bound that is at least
the length of the buffer. -/
theorem parseLoop_stable (n : Nat) (ss : istringstream) (order : Order)
    (Inventory : Warehouse) (hn : ss.buf.length ≤ n) :
    parseLoop n ss order Inventory = parseLoop ss.buf.length ss order Inventory := by
  rw [parseLoop_eq, parseLoop_eq,
    istringstream.readPairs_stable n ss.buf.length ss hn (le_refl _)]

end OrderParser

/-! ## `OrderParser::Parse` -/

namespace OrderParser

theorem Parse_of_not_check (p : OrderParser) (Line : String) (h : p.Check Line = false) :
    p.Parse Line = p := by
  simp [Parse, h]

theorem Parse_of_check (p : OrderParser) (Line : String) (h : p.Check Line = true) :
    p.Parse Line
      = { Inventory := (allocateAll (tokenize Line).pairs p.Inventory).2
          Log := { Orders := p.Log.Orders ++
            [{ Stream := (tokenize Line).stream
               Header := (tokenize Line).header
               Lines := (allocateAll (tokenize Line).pairs p.Inventory).1 }] } } := by
  simp [Parse, h, parseLoop_eq, tokenize, OrderLog.Add, Order.new]

end OrderParser

theorem allocateAll_length (pairs : List (productKey × Nat)) (Inventory : Warehouse) :
    (allocateAll pairs Inventory).1.length = pairs.length := by
  induction pairs generalizing Inventory with
  | nil => rfl
  | cons pq rest ih =>
    obtain ⟨product, quantity⟩ := pq
    simp [allocateAll, ih]

/-- The result at position `i` is the allocation of the pair at position `i`
against the warehouse left by the allocations of the pairs before it. -/
theorem allocateAll_getElem (pairs : List (productKey × Nat)) (Inventory : Warehouse)
    (i : Nat) (h : i < pairs.length) :
    (allocateAll pairs Inventory).1[i]?
      = some ((OrderLine.new (pairs.get ⟨i, h⟩).1 (pairs.get ⟨i, h⟩).2).Allocate
          (allocateAll (pairs.take i) Inventory).2).1 := by
  induction pairs generalizing Inventory i with
  | nil => simp at h
  | cons pq rest ih =>
    obtain ⟨product, quantity⟩ := pq
    cases i with
    | zero => simp [allocateAll]
    | succ j =>
      have hj : j < rest.length := by simpa using h
      simpa [allocateAll] using ih _ j hj

/-! ## The tailing loop of `OrderParser::ParseFile` -/

namespace OrderParser

theorem parseAll_cons (p : OrderParser) (line : String) (rest : List String) :
    parseAll p (line :: rest) = parseAll (p.Parse line) rest := rfl

theorem parseAll_append (p : OrderParser) (xs ys : List String) :
    parseAll p (xs ++ ys) = parseAll (parseAll p xs) ys := by
  simp [parseAll, List.foldl_append]

theorem IsEmpty_iff (w : Warehouse) : w.IsEmpty = true ↔ w.TotalInventory = 0 := by
  simp [Warehouse.IsEmpty]

theorem tailLoop_cons_empty (p : OrderParser) (line : String) (rest : List String)
    (h : (p.Parse line).Inventory.TotalInventory = 0) :
    tailLoop p (line :: rest) = .dumped (p.Parse line) (p.Parse line).Log.Dump rest := by
  simp [tailLoop, Warehouse.IsEmpty, h]

theorem tailLoop_cons_nonempty (p : OrderParser) (line : String) (rest : List String)
    (h : (p.Parse line).Inventory.TotalInventory ≠ 0) :
    tailLoop p (line :: rest) = tailLoop (p.Parse line) rest := by
  simp [tailLoop, Warehouse.IsEmpty, h]

/-- The loop stops after the first line that leaves the total at 0. -/
theorem tailLoop_stops (p : OrderParser) (pre : List String) (line : String)
    (post : List String)
    (hpre : ∀ k, 0 < k → k ≤ pre.length →
      (parseAll p (pre.take k)).Inventory.TotalInventory ≠ 0)
    (hline : (parseAll p (pre ++ [line])).Inventory.TotalInventory = 0) :
    tailLoop p (pre ++ line :: post)
      = .dumped (parseAll p (pre ++ [line])) (parseAll p (pre ++ [line])).Log.Dump post := by
  induction pre generalizing p with
  | nil => exact tailLoop_cons_empty p line post hline
  | cons l rest ih =>
    have h1 : (p.Parse l).Inventory.TotalInventory ≠ 0 := by
      simpa [parseAll] using hpre 1 (by omega) (by simp)
    rw [List.cons_append, tailLoop_cons_nonempty p l _ h1]
    refine ih (p.Parse l) (fun k hk hk2 => ?_) hline
    have := hpre (k + 1) (by omega) (by simpa using hk2)
    simpa [parseAll_cons] using this

/-- The loop keeps polling when no line leaves the total at 0. -/
theorem tailLoop_polls (p : OrderParser) (lines : List String)
    (h : ∀ k, 0 < k → k ≤ lines.length →
      (parseAll p (lines.take k)).Inventory.TotalInventory ≠ 0) :
    tailLoop p lines = .polling (parseAll p lines) := by
  induction lines generalizing p with
  | nil => rfl
  | cons l rest ih =>
    have h1 : (p.Parse l).Inventory.TotalInventory ≠ 0 := by
      simpa [parseAll] using h 1 (by omega) (by simp)
    rw [tailLoop_cons_nonempty p l _ h1, parseAll_cons]
    refine ih (p.Parse l) (fun k hk hk2 => ?_)
    have := h (k + 1) (by omega) (by simpa using hk2)
    simpa [parseAll_cons] using this

/-- When the loop stops, it has stopped after the first line that left the
total at 0. -/
theorem tailLoop_dumped (p : OrderParser) (lines : List String) (q : OrderParser)
    (report : String) (unread : List String)
    (h : tailLoop p lines = .dumped q report unread) :
    ∃ pre line, lines = pre ++ line :: unread ∧ q = parseAll p (pre ++ [line]) ∧
      q.Inventory.TotalInventory = 0 ∧ report = q.Log.Dump ∧
      ∀ k, 0 < k → k ≤ pre.length →
        (parseAll p (pre.take k)).Inventory.TotalInventory ≠ 0 := by
  induction lines generalizing p with
  | nil => simp [tailLoop] at h
  | cons l rest ih =>
    by_cases h1 : (p.Parse l).Inventory.TotalInventory = 0
    · rw [tailLoop_cons_empty p l rest h1] at h
      simp only [Outcome.dumped.injEq] at h
      obtain ⟨hq, hr, hu⟩ := h
      refine ⟨[], l, by simp [hu], by simp [parseAll, hq], by rw [← hq]; exact h1,
        by rw [← hr, ← hq], fun k hk hk2 => ?_⟩
      simp at hk2
      omega
    · rw [tailLoop_cons_nonempty p l rest h1] at h
      obtain ⟨pre, line, e1, e2, e3, e4, e5⟩ := ih (p.Parse l) h
      refine ⟨l :: pre, line, by simp [e1], by simpa [parseAll_cons] using e2, e3, e4,
        fun k hk hk2 => ?_⟩
      cases k with
      | zero => omega
      | succ j =>
        cases j with
        | zero => simpa [parseAll] using h1
        | succ i =>
          have := e5 (i + 1) (by omega) (by simpa using hk2)
          simpa [parseAll_cons] using this

end OrderParser

/-! ## Claims on `OrderParser` -/

/-- C5: `Check` returns true if and only if the stream token and the header
token of the line are both non-empty, every pair has a quantity of at most 5,
every pair has a product that `CheckProduct` knows, and at least one pair has a
positive quantity.  In particular a line without pairs is rejected. -/
theorem Check_accepts_iff (p : OrderParser) (Line : String) :
    (p.Check Line = true ↔
      (0 < (tokenize Line).stream.length ∧ 0 < (tokenize Line).header.length) ∧
        (∀ pq ∈ (tokenize Line).pairs, pq.2 ≤ 5) ∧
        (∀ pq ∈ (tokenize Line).pairs, p.Inventory.CheckProduct pq.1 = true) ∧
        (∃ pq ∈ (tokenize Line).pairs, 0 < pq.2)) ∧
      ((tokenize Line).pairs = [] → p.Check Line = false) := by
  refine ⟨OrderParser.Check_iff p Line, fun h => ?_⟩
  cases hc : p.Check Line with
  | false => rfl
  | true =>
    obtain ⟨pq, hpq, _⟩ := ((OrderParser.Check_iff p Line).mp hc).2.2.2
    rw [h] at hpq
    simp at hpq

/-- C5 (witness): with stock `A = 3`, `B = 3` the line `S1 H1` has no pairs and is
rejected. -/
theorem Check_accepts_iff_witness :
    (tokenize "S1 H1").pairs = [] ∧ OrderParser.new.Check "S1 H1" = false :=
  ⟨by decide, (Check_accepts_iff OrderParser.new "S1 H1").2 (by decide)⟩

/-- C6: a line that `Check` rejects leaves the engine as it was: the order log
and the warehouse (entries and total) are the same. -/
theorem Parse_invalid_unchanged (p : OrderParser) (Line : String)
    (h : p.Check Line = false) :
    p.Parse Line = p ∧ (p.Parse Line).Log.Orders = p.Log.Orders ∧
      (p.Parse Line).Inventory.Stores = p.Inventory.Stores ∧
      (p.Parse Line).Inventory.TotalInventory = p.Inventory.TotalInventory := by
  rw [OrderParser.Parse_of_not_check p Line h]
  exact ⟨rfl, rfl, rfl, rfl⟩

/-- C6 (witness): stock `A = 3` and the line `S1 H1 Z 1` for an unknown product. -/
theorem Parse_invalid_unchanged_witness :
    (OrderParser.ofInventoryLine "A 3").Check "S1 H1 Z 1" = false ∧
      (OrderParser.ofInventoryLine "A 3").Parse "S1 H1 Z 1"
        = OrderParser.ofInventoryLine "A 3" :=
  ⟨by decide, (Parse_invalid_unchanged (OrderParser.ofInventoryLine "A 3") "S1 H1 Z 1"
    (by decide)).1⟩

/-- C7: for a valid line with stream `s`, header `h` and pairs
`(p1,q1),...,(pn,qn)`, `Parse` appends exactly one order to the end of the log;
that order has stream `s`, header `h` and `n` lines, the line at position `i`
being the allocation of pair `i` against the warehouse left by the allocations
of the pairs before it; the warehouse afterwards is the one left by the last
allocation. -/
theorem Parse_valid_appends (p : OrderParser) (Line : String) (h : p.Check Line = true) :
    (p.Parse Line).Log.Orders
        = p.Log.Orders ++
          [{ Stream := (tokenize Line).stream
             Header := (tokenize Line).header
             Lines := (allocateAll (tokenize Line).pairs p.Inventory).1 }] ∧
      (p.Parse Line).Inventory = (allocateAll (tokenize Line).pairs p.Inventory).2 ∧
      (allocateAll (tokenize Line).pairs p.Inventory).1.length
        = (tokenize Line).pairs.length ∧
      ∀ (i : Nat) (hi : i < (tokenize Line).pairs.length),
        (allocateAll (tokenize Line).pairs p.Inventory).1[i]?
          = some ((OrderLine.new ((tokenize Line).pairs.get ⟨i, hi⟩).1
                ((tokenize Line).pairs.get ⟨i, hi⟩).2).Allocate
              (allocateAll ((tokenize Line).pairs.take i) p.Inventory).2).1 := by
  rw [OrderParser.Parse_of_check p Line h]
  exact ⟨rfl, rfl, allocateAll_length _ _, fun i hi => allocateAll_getElem _ _ i hi⟩

/-- C7 (witness): stock `A = 3`, `B = 3` and the line `S1 H1 A 4 B 1`. -/
theorem Parse_valid_appends_witness :
    OrderParser.new.Check "S1 H1 A 4 B 1" = true ∧
      (OrderParser.new.Parse "S1 H1 A 4 B 1").Log.Orders
        = OrderParser.new.Log.Orders ++
          [{ Stream := (tokenize "S1 H1 A 4 B 1").stream
             Header := (tokenize "S1 H1 A 4 B 1").header
             Lines := (allocateAll (tokenize "S1 H1 A 4 B 1").pairs
               OrderParser.new.Inventory).1 }] :=
  ⟨by decide, (Parse_valid_appends OrderParser.new "S1 H1 A 4 B 1" (by decide)).1⟩

/-- C8: on the lines that `ParseFile` reads, the loop tests the total after
every line, accepted or discarded.  (1) If a line leaves the total at 0 and no
line before it did, the loop stops right after it: the engine is the one after
that line, the report is the dump of its log, and the lines behind it are
unread.  (2) If no line leaves the total at 0 the loop does not stop.  (3) When
the loop stops, it is after a line that left the total at 0, the first such
line. -/
theorem tailLoop_stops_at_first_empty (p : OrderParser) (lines : List String) :
    (∀ pre line post, lines = pre ++ line :: post →
      (∀ k, 0 < k → k ≤ pre.length →
        (OrderParser.parseAll p (pre.take k)).Inventory.TotalInventory ≠ 0) →
      (OrderParser.parseAll p (pre ++ [line])).Inventory.TotalInventory = 0 →
      p.ParseFile (some lines)
        = .dumped (OrderParser.parseAll p (pre ++ [line]))
            (OrderParser.parseAll p (pre ++ [line])).Log.Dump post) ∧
    ((∀ k, 0 < k → k ≤ lines.length →
        (OrderParser.parseAll p (lines.take k)).Inventory.TotalInventory ≠ 0) →
      p.ParseFile (some lines) = .polling (OrderParser.parseAll p lines)) ∧
    (∀ q report unread, p.ParseFile (some lines) = .dumped q report unread →
      ∃ pre line, lines = pre ++ line :: unread ∧
        q = OrderParser.parseAll p (pre ++ [line]) ∧
        q.Inventory.TotalInventory = 0 ∧ report = q.Log.Dump ∧
        ∀ k, 0 < k → k ≤ pre.length →
          (OrderParser.parseAll p (pre.take k)).Inventory.TotalInventory ≠ 0) := by
  refine ⟨fun pre line post e hpre hline => ?_, fun h => ?_, fun q report unread h => ?_⟩
  · subst e
    exact OrderParser.tailLoop_stops p pre line post hpre hline
  · exact OrderParser.tailLoop_polls p lines h
  · exact OrderParser.tailLoop_dumped p lines q report unread h

/-- C8 (witness): stock `A = 3`; the discarded line `S1 H1 Z 1` leaves the total
at 3, the line `S1 H2 A 3` leaves it at 0, and the line `S1 H3 A 1` stays
unread. -/
theorem tailLoop_stops_at_first_empty_witness :
    (OrderParser.ofInventoryLine "A 3").ParseFile
        (some ["S1 H1 Z 1", "S1 H2 A 3", "S1 H3 A 1"])
      = .dumped
          (OrderParser.parseAll (OrderParser.ofInventoryLine "A 3")
            (["S1 H1 Z 1"] ++ ["S1 H2 A 3"]))
          (OrderParser.parseAll (OrderParser.ofInventoryLine "A 3")
            (["S1 H1 Z 1"] ++ ["S1 H2 A 3"])).Log.Dump
          ["S1 H3 A 1"] :=
  (tailLoop_stops_at_first_empty (OrderParser.ofInventoryLine "A 3")
    ["S1 H1 Z 1", "S1 H2 A 3", "S1 H3 A 1"]).1 ["S1 H1 Z 1"] "S1 H2 A 3" ["S1 H3 A 1"] rfl
    (fun k hk hk2 => by
      have e : k = 1 := by
        simp only [List.length_singleton] at hk2
        omega
      subst e
      decide)
    (by decide)

/-- C9: scenario A.  The inventory file holds `A 3`, the order file the lines
`S1 H1 A 2` and `S1 H2 A 1`.  After line 1 the stock of `A` is 1, the total is 1
and the inventory is not empty; after line 2 the stock of `A` is 0, the total is
0 and the inventory is empty; `ParseFile` stops there and writes the two lines
`S1-H1: A=2/2%0` and `S1-H2: A=1/1%0`. -/
theorem scenario_A :
    (OrderParser.ofInventoryLine "A 3").Inventory
        = { Stores := [('A', 3)], TotalInventory := 3 } ∧
      ((OrderParser.ofInventoryLine "A 3").Parse "S1 H1 A 2").Inventory.stock 'A' = 1 ∧
      ((OrderParser.ofInventoryLine "A 3").Parse "S1 H1 A 2").Inventory.TotalInventory = 1 ∧
      ((OrderParser.ofInventoryLine "A 3").Parse "S1 H1 A 2").Inventory.IsEmpty = false ∧
      (((OrderParser.ofInventoryLine "A 3").Parse "S1 H1 A 2").Parse
        "S1 H2 A 1").Inventory.stock 'A' = 0 ∧
      (((OrderParser.ofInventoryLine "A 3").Parse "S1 H1 A 2").Parse
        "S1 H2 A 1").Inventory.TotalInventory = 0 ∧
      (((OrderParser.ofInventoryLine "A 3").Parse "S1 H1 A 2").Parse
        "S1 H2 A 1").Inventory.IsEmpty = true ∧
      (OrderParser.ofInventoryLine "A 3").ParseFile (some ["S1 H1 A 2", "S1 H2 A 1"])
        = .dumped
            (((OrderParser.ofInventoryLine "A 3").Parse "S1 H1 A 2").Parse "S1 H2 A 1")
            "S1-H1: A=2/2%0\nS1-H2: A=1/1%0\n" [] := by
  decide

/-- C10: a line with a pair of quantity 6 or more, at any position of the pair
list, is rejected by `Check` whatever the other pairs and the products are, and
`Parse` leaves the order log and the inventory as they were. -/
theorem Check_rejects_quantity_over_5 (p : OrderParser) (Line : String)
    (h : ∃ pq ∈ (tokenize Line).pairs, 6 ≤ pq.2) :
    p.Check Line = false ∧ p.Parse Line = p ∧
      (p.Parse Line).Log.Orders = p.Log.Orders ∧
      (p.Parse Line).Inventory = p.Inventory := by
  have hc : p.Check Line = false := by
    cases hc : p.Check Line with
    | false => rfl
    | true =>
      obtain ⟨pq, hpq, h6⟩ := h
      have := ((OrderParser.Check_iff p Line).mp hc).2.1 pq hpq
      omega
  rw [OrderParser.Parse_of_not_check p Line hc]
  exact ⟨hc, rfl, rfl, rfl⟩

/-- C10 (witness): stock `A = 3` and the line `S1 H1 A 1 A 6`, which orders 6 of
the known product `A` after an acceptable pair. -/
theorem Check_rejects_quantity_over_5_witness :
    (OrderParser.ofInventoryLine "A 3").Inventory.CheckProduct 'A' = true ∧
      (∃ pq ∈ (tokenize "S1 H1 A 1 A 6").pairs, 6 ≤ pq.2) ∧
      (OrderParser.ofInventoryLine "A 3").Check "S1 H1 A 1 A 6" = false ∧
      (OrderParser.ofInventoryLine "A 3").Parse "S1 H1 A 1 A 6"
        = OrderParser.ofInventoryLine "A 3" :=
  ⟨by decide, by decide,
    (Check_rejects_quantity_over_5 (OrderParser.ofInventoryLine "A 3") "S1 H1 A 1 A 6"
      (by decide)).1,
    (Check_rejects_quantity_over_5 (OrderParser.ofInventoryLine "A 3") "S1 H1 A 1 A 6"
      (by decide)).2.1⟩

/-! ## Entries of the map -/

theorem keys_subscript_of_isSome (m : StoreMap) (k : productKey)
    (h : (find m k).isSome = true) : keys (subscript m k) = keys m := by
  rw [subscript_of_isSome m k h]

theorem keys_assign (m : StoreMap) (k : productKey) (x : Nat) :
    keys (assign m k x) = keys m := by
  induction m with
  | nil => rfl
  | cons e rest ih =>
    obtain ⟨k1, v1⟩ := e
    by_cases h1 : k = k1
    · simp [assign, keys, h1]
    · simp only [keys] at ih
      simp [assign, keys, h1, ih]

theorem isSome_find_iff_mem_keys (m : StoreMap) (k : productKey) :
    (find m k).isSome = true ↔ k ∈ keys m := by
  induction m with
  | nil => simp [find, keys]
  | cons e rest ih =>
    obtain ⟨k1, v1⟩ := e
    by_cases h1 : k = k1
    · simp [find, keys, h1]
    · simp only [keys] at ih
      simp [find, keys, h1, ih]

theorem isSome_find_subscript (m : StoreMap) (k j : productKey) :
    (find (subscript m k) j).isSome = (j == k || (find m j).isSome) := by
  by_cases h : j = k
  · subst h; simp [find_subscript_self]
  · simp [find_subscript_ne m k j h, h]

theorem sumStock_eq_zero_iff (m : StoreMap) : sumStock m = 0 ↔ ∀ e ∈ m, e.2 = 0 := by
  induction m with
  | nil => simp [sumStock]
  | cons e rest ih =>
    simp only [sumStock] at ih
    simp [sumStock, ih]

/-! ## More on `Warehouse::Store` and `Warehouse::Pull` -/

namespace Warehouse

theorem Store_stock_self (w : Warehouse) (k : productKey) (c : Nat) :
    (w.Store k c).stock k = uadd (w.stock k) c := by
  simp [Store, stock, value, find_assign_self, find_subscript_self]

theorem Store_stock_ne (w : Warehouse) (k j : productKey) (c : Nat) (h : j ≠ k) :
    (w.Store k c).stock j = w.stock j := by
  simp [Store, stock, value, find_assign_ne _ _ _ _ h, find_subscript_ne _ _ _ h]

theorem Store_checkProduct (w : Warehouse) (k j : productKey) (c : Nat) :
    (w.Store k c).CheckProduct j = (j == k || w.CheckProduct j) := by
  simp [Store, CheckProduct, isSome_find_assign, isSome_find_subscript]

theorem Pull_checkProduct_eq (w : Warehouse) (k j : productKey) (c : Nat) :
    (w.Pull k c).2.CheckProduct j = (j == k || w.CheckProduct j) := by
  unfold Pull
  by_cases h : value (subscript w.Stores k) k < c
  · simp [h, CheckProduct, isSome_find_subscript]
  · simp [h, CheckProduct, isSome_find_assign, isSome_find_subscript]

/-- A pull of a product that has an entry keeps the list of keys. -/
theorem Pull_keys (w : Warehouse) (k : productKey) (c : Nat)
    (hk : w.CheckProduct k = true) : keys (w.Pull k c).2.Stores = keys w.Stores := by
  unfold Pull
  rw [subscript_of_isSome _ _ hk]
  by_cases h : value w.Stores k < c
  · simp [h]
  · simp [h, keys_assign]

theorem Pull_stock_ne (w : Warehouse) (k j : productKey) (c : Nat) (h : j ≠ k) :
    (w.Pull k c).2.stock j = w.stock j := by
  by_cases hc : w.stock k < c
  · rw [Pull_of_lt w k c hc]
    simp [stock, value, find_subscript_ne _ _ _ h]
  · rw [Pull_of_le w k c (Nat.le_of_not_lt hc)]
    simp [stock, value, find_assign_ne _ _ _ _ h, find_subscript_ne _ _ _ h]

theorem usub_self (c : Nat) : usub c c = 0 := by
  unfold usub UINT_MOD
  omega

end Warehouse

theorem Op.apply_checkProduct (w : Warehouse) (o : Op) (j : productKey) :
    (o.apply w).CheckProduct j = (j == o.key || w.CheckProduct j) := by
  cases o with
  | store k c => exact Warehouse.Store_checkProduct w k j c
  | pull k c => exact Warehouse.Pull_checkProduct_eq w k j c

/-- After a sequence of calls a product has an entry exactly when it had one
before or some call of the sequence, `Store` or `Pull`, was for it. -/
theorem runOps_checkProduct (w : Warehouse) (ops : List Op) (j : productKey) :
    (runOps w ops).CheckProduct j = (w.CheckProduct j || ops.any (fun o => j == o.key)) := by
  induction ops generalizing w with
  | nil => simp [runOps]
  | cons o rest ih =>
    have e : runOps w (o :: rest) = runOps (o.apply w) rest := rfl
    rw [e, ih, Op.apply_checkProduct]
    simp only [List.any_cons]
    cases (j == o.key) <;> cases w.CheckProduct j <;> simp

/-! ## Claims C12 to C16 -/

/-- C12 (counterexample): with stock `A = 3`, `B = 3` the product `Z` has no
entry, and `Pull('Z', 0)` returns true, not false: zero available stock is
enough for a request of 0.  (For a positive count, `Pull('Z', 2)` does return
false; both calls leave an entry `Z = 0` behind.) -/
theorem Pull_unknown_zero_succeeds :
    OrderParser.new.Inventory.CheckProduct 'Z' = false ∧
      (OrderParser.new.Inventory.Pull 'Z' 0).1 = true ∧
      (OrderParser.new.Inventory.Pull 'Z' 2).1 = false ∧
      (OrderParser.new.Inventory.Pull 'Z' 0).2.Stores = [('A', 3), ('B', 3), ('Z', 0)] ∧
      (OrderParser.new.Inventory.Pull 'Z' 2).2.Stores = [('A', 3), ('B', 3), ('Z', 0)] := by
  decide

/-- C12 (amended): for a product that has no entry, `Pull` treats the product as
having zero stock: it returns false exactly when the count is positive, and in
either case the total, the stock read for every product and the entries of all
other products are the same after the call. -/
theorem Pull_unknown_product (w : Warehouse) (UnitType : productKey) (Count : Nat)
    (hw : w.InRange) (hk : w.CheckProduct UnitType = false) :
    w.stock UnitType = 0 ∧
      ((w.Pull UnitType Count).1 = false ↔ 0 < Count) ∧
      (w.Pull UnitType Count).2.TotalInventory = w.TotalInventory ∧
      (∀ j, (w.Pull UnitType Count).2.stock j = w.stock j) ∧
      (∀ j, j ≠ UnitType →
        (w.Pull UnitType Count).2.CheckProduct j = w.CheckProduct j) := by
  have h0 : w.stock UnitType = 0 := by
    unfold Warehouse.CheckProduct at hk
    unfold Warehouse.stock value
    cases hf : find w.Stores UnitType with
    | none => rfl
    | some v => simp [hf] at hk
  refine ⟨h0, ?_, ?_, ?_, ?_⟩
  · rw [Warehouse.Pull_fst, h0]
    simp
    omega
  · by_cases hc : w.stock UnitType < Count
    · exact (Warehouse.Pull_of_lt_frame w UnitType Count hc).1
    · have hle : Count ≤ w.stock UnitType := Nat.le_of_not_lt hc
      have hz : Count = 0 := by omega
      subst hz
      rw [Warehouse.Pull_of_le w UnitType 0 hle]
      exact usub_of_le _ _ (Nat.zero_le _) hw.1
  · intro j
    by_cases hj : j = UnitType
    · subst hj
      by_cases hc : w.stock j < Count
      · exact (Warehouse.Pull_of_lt_frame w j Count hc).2.1 j
      · have hle : Count ≤ w.stock j := Nat.le_of_not_lt hc
        rw [Warehouse.Pull_of_le w j Count hle, h0]
        have hz : Count = 0 := by omega
        subst hz
        simp [Warehouse.stock, value, find_assign_self, find_subscript_self,
          Warehouse.usub_self]
    · exact Warehouse.Pull_stock_ne w UnitType j Count hj
  · intro j hj
    rw [Warehouse.Pull_checkProduct_eq]
    simp [hj]

/-- C12 (witness): stock `A = 3`, `B = 3` and `Pull('Z', 2)`. -/
theorem Pull_unknown_product_witness :
    OrderParser.new.Inventory.InRange ∧
      OrderParser.new.Inventory.CheckProduct 'Z' = false ∧
      ((OrderParser.new.Inventory.Pull 'Z' 2).1 = false ↔ 0 < 2) ∧
      (OrderParser.new.Inventory.Pull 'Z' 2).2.TotalInventory
        = OrderParser.new.Inventory.TotalInventory :=
  ⟨by decide, by decide,
    (Pull_unknown_product OrderParser.new.Inventory 'Z' 2 (by decide) (by decide)).2.1,
    (Pull_unknown_product OrderParser.new.Inventory 'Z' 2 (by decide) (by decide)).2.2.1⟩

/-- C13 (evaluation at the failing input): on a fresh warehouse the single call
`Pull('Z', 1)`, a sequence without any `Store` call, fails and leaves
`CheckProduct('Z')` true.  The membership part of the claim does hold: after
`Store('A', 0)`, and after `Store('A', 2)` followed by `Pull('A', 2)`, the
product `A` has stock 0 and `CheckProduct('A')` is true. -/
theorem CheckProduct_true_without_Store :
    [Op.pull 'Z' 1].any (Op.isStoreOf 'Z') = false ∧
      (Warehouse.new.Pull 'Z' 1).1 = false ∧
      (runOps Warehouse.new [Op.pull 'Z' 1]).CheckProduct 'Z' = true ∧
      (runOps Warehouse.new [Op.store 'A' 0]).CheckProduct 'A' = true ∧
      (runOps Warehouse.new [Op.store 'A' 2, Op.pull 'A' 2]).stock 'A' = 0 ∧
      (runOps Warehouse.new [Op.store 'A' 2, Op.pull 'A' 2]).CheckProduct 'A' = true := by
  decide

/-- C14: when the stock of a product is exactly `c`, `Pull(product, c)` returns
true and leaves the stock of the product at 0; the following `Pull(product, 1)`
returns false and leaves the warehouse as it is, so no stock and not the total
change. -/
theorem Pull_all_then_one (w : Warehouse) (UnitType : productKey) (c : Nat)
    (hc : w.stock UnitType = c) :
    (w.Pull UnitType c).1 = true ∧
      (w.Pull UnitType c).2.stock UnitType = 0 ∧
      ((w.Pull UnitType c).2.Pull UnitType 1).1 = false ∧
      ((w.Pull UnitType c).2.Pull UnitType 1).2 = (w.Pull UnitType c).2 ∧
      (∀ j, ((w.Pull UnitType c).2.Pull UnitType 1).2.stock j
        = (w.Pull UnitType c).2.stock j) ∧
      ((w.Pull UnitType c).2.Pull UnitType 1).2.TotalInventory
        = (w.Pull UnitType c).2.TotalInventory := by
  subst hc
  have h1 : (w.Pull UnitType (w.stock UnitType)).1 = true := by
    rw [Warehouse.Pull_fst]; simp
  have h2 : (w.Pull UnitType (w.stock UnitType)).2.stock UnitType = 0 := by
    rw [Warehouse.Pull_of_le w UnitType _ (le_refl _)]
    simp [Warehouse.stock, value, find_assign_self, find_subscript_self]
    exact Warehouse.usub_self _
  have h3 : (w.Pull UnitType (w.stock UnitType)).2.CheckProduct UnitType = true := by
    rw [Warehouse.Pull_checkProduct_eq]; simp
  have h4 := Warehouse.Pull_of_lt_of_checkProduct
    (w.Pull UnitType (w.stock UnitType)).2 UnitType 1 h3 (by rw [h2]; omega)
  rw [h4]
  exact ⟨h1, h2, rfl, rfl, fun _ => rfl, rfl⟩

/-- C14 (witness): stock `A = 3`, `B = 3`, product `A`. -/
theorem Pull_all_then_one_witness :
    OrderParser.new.Inventory.stock 'A' = 3 ∧
      (OrderParser.new.Inventory.Pull 'A' 3).1 = true ∧
      (OrderParser.new.Inventory.Pull 'A' 3).2.stock 'A' = 0 ∧
      ((OrderParser.new.Inventory.Pull 'A' 3).2.Pull 'A' 1).1 = false :=
  ⟨by decide,
    (Pull_all_then_one OrderParser.new.Inventory 'A' 3 (by decide)).1,
    (Pull_all_then_one OrderParser.new.Inventory 'A' 3 (by decide)).2.1,
    (Pull_all_then_one OrderParser.new.Inventory 'A' 3 (by decide)).2.2.1⟩

/-- C15 (counterexample): with stock `A = 4294967295`, `Store('A', 1)` leaves the
stock of `A` and the total at 0, not at the old value plus 1. -/
theorem Store_wraps :
    (Warehouse.new.Store 'A' 4294967295).InRange ∧
      (Warehouse.new.Store 'A' 4294967295).stock 'A' = 4294967295 ∧
      (Warehouse.new.Store 'A' 4294967295).TotalInventory = 4294967295 ∧
      ((Warehouse.new.Store 'A' 4294967295).Store 'A' 1).stock 'A' = 0 ∧
      ((Warehouse.new.Store 'A' 4294967295).Store 'A' 1).TotalInventory = 0 ∧
      ((Warehouse.new.Store 'A' 4294967295).Store 'A' 1).stock 'A'
        ≠ (Warehouse.new.Store 'A' 4294967295).stock 'A' + 1 ∧
      ((Warehouse.new.Store 'A' 4294967295).Store 'A' 1).TotalInventory
        ≠ (Warehouse.new.Store 'A' 4294967295).TotalInventory + 1 := by
  decide

/-- C15 (amended): `Store` makes the stock of the product its old stock (0 when
the product had no entry) plus `Count` modulo `2^32`, makes the total the old
total plus `Count` modulo `2^32`, gives the product an entry, and leaves the
stock and the entries of all other products unchanged.  Both additions are
exact when their result is below `2^32`. -/
theorem Store_adds_mod (w : Warehouse) (UnitType : productKey) (Count : Nat) :
    (w.Store UnitType Count).stock UnitType = (w.stock UnitType + Count) % 4294967296 ∧
      (w.Store UnitType Count).TotalInventory
        = (w.TotalInventory + Count) % 4294967296 ∧
      (w.Store UnitType Count).CheckProduct UnitType = true ∧
      (∀ other, other ≠ UnitType →
        (w.Store UnitType Count).stock other = w.stock other ∧
        (w.Store UnitType Count).CheckProduct other = w.CheckProduct other) ∧
      (w.stock UnitType + Count < 4294967296 →
        (w.Store UnitType Count).stock UnitType = w.stock UnitType + Count) ∧
      (w.TotalInventory + Count < 4294967296 →
        (w.Store UnitType Count).TotalInventory = w.TotalInventory + Count) := by
  have e1 : (w.Store UnitType Count).stock UnitType
      = (w.stock UnitType + Count) % 4294967296 := Warehouse.Store_stock_self w UnitType Count
  have e2 : (w.Store UnitType Count).TotalInventory
      = (w.TotalInventory + Count) % 4294967296 := rfl
  refine ⟨e1, e2, ?_, fun other ho => ⟨Warehouse.Store_stock_ne w UnitType other Count ho, ?_⟩,
    fun h => ?_, fun h => ?_⟩
  · rw [Warehouse.Store_checkProduct]; simp
  · rw [Warehouse.Store_checkProduct]; simp [ho]
  · rw [e1]; exact Nat.mod_eq_of_lt h
  · rw [e2]; exact Nat.mod_eq_of_lt h

/-- C16: an order is not transactional.  With the default stock `A = 3`,
`B = 3` the line `S1 H1 A 4 B 1` is valid, and `Parse` records one order whose
line for `A` is fully backlogged (0 pulled, 4 backlog) and whose line for `B` is
fully pulled (1 pulled, 0 backlog); the stock of `B` stays reduced to 2, the
stock of `A` stays 3 and the total is 5. -/
theorem order_not_transactional :
    OrderParser.new.Check "S1 H1 A 4 B 1" = true ∧
      (tokenize "S1 H1 A 4 B 1").pairs = [('A', 4), ('B', 1)] ∧
      (OrderParser.new.Parse "S1 H1 A 4 B 1").Log.Orders
        = [{ Stream := "S1", Header := "H1",
             Lines := [{ Product := 'A', Requested := 4, Pulled := 0, Backlog := 4 },
                       { Product := 'B', Requested := 1, Pulled := 1, Backlog := 0 }] }] ∧
      OrderParser.new.Inventory.stock 'B' = 3 ∧
      (OrderParser.new.Parse "S1 H1 A 4 B 1").Inventory.stock 'B' = 2 ∧
      (OrderParser.new.Parse "S1 H1 A 4 B 1").Inventory.stock 'A' = 3 ∧
      (OrderParser.new.Parse "S1 H1 A 4 B 1").Inventory.TotalInventory = 5 := by
  decide

/-! ## `Parse` and the entries of the warehouse -/

theorem checkProduct_eq_of_keys (w1 w2 : Warehouse) (h : keys w1.Stores = keys w2.Stores)
    (j : productKey) : w1.CheckProduct j = w2.CheckProduct j := by
  have h1 := isSome_find_iff_mem_keys w1.Stores j
  have h2 := isSome_find_iff_mem_keys w2.Stores j
  rw [h] at h1
  unfold Warehouse.CheckProduct
  cases e1 : (find w1.Stores j).isSome <;> cases e2 : (find w2.Stores j).isSome
  · rfl
  · exact absurd (h1.mpr (h2.mp e2)) (by simp [e1])
  · exact absurd (h2.mpr (h1.mp e1)) (by simp [e2])
  · rfl

theorem allocateAll_nil (w : Warehouse) : allocateAll [] w = ([], w) := rfl

theorem allocateAll_cons (product : productKey) (quantity : Nat)
    (rest : List (productKey × Nat)) (w : Warehouse) :
    allocateAll ((product, quantity) :: rest) w
      = (((OrderLine.new product quantity).Allocate w).1
          :: (allocateAll rest ((OrderLine.new product quantity).Allocate w).2).1,
         (allocateAll rest ((OrderLine.new product quantity).Allocate w).2).2) := rfl

theorem Allocate_new_snd (product : productKey) (quantity : Nat) (w : Warehouse) :
    ((OrderLine.new product quantity).Allocate w).2 = (w.Pull product quantity).2 :=
  OrderLine.Allocate_snd _ _

/-- Allocation never removes an entry. -/
theorem allocateAll_checkProduct (pairs : List (productKey × Nat)) (w : Warehouse)
    (j : productKey) (hj : w.CheckProduct j = true) :
    (allocateAll pairs w).2.CheckProduct j = true := by
  induction pairs generalizing w with
  | nil => exact hj
  | cons pq rest ih =>
    obtain ⟨product, quantity⟩ := pq
    rw [allocateAll_cons]
    apply ih
    rw [Allocate_new_snd]
    exact Warehouse.Pull_checkProduct w product quantity j hj

/-- Allocation of pairs whose products all have an entry keeps the keys. -/
theorem allocateAll_keys (pairs : List (productKey × Nat)) (w : Warehouse)
    (h : ∀ pq ∈ pairs, w.CheckProduct pq.1 = true) :
    keys (allocateAll pairs w).2.Stores = keys w.Stores := by
  induction pairs generalizing w with
  | nil => rfl
  | cons pq rest ih =>
    obtain ⟨product, quantity⟩ := pq
    have hk : w.CheckProduct product = true := h (product, quantity) (List.mem_cons_self _ _)
    rw [allocateAll_cons]
    simp only
    rw [ih, Allocate_new_snd, Warehouse.Pull_keys w product quantity hk]
    intro pq hpq
    rw [Allocate_new_snd]
    exact Warehouse.Pull_checkProduct w product quantity pq.1
      (h pq (List.mem_cons_of_mem _ hpq))

namespace OrderParser

theorem Parse_keys (p : OrderParser) (Line : String) :
    keys (p.Parse Line).Inventory.Stores = keys p.Inventory.Stores := by
  cases hc : p.Check Line with
  | false => rw [Parse_of_not_check p Line hc]
  | true =>
    rw [Parse_of_check p Line hc]
    exact allocateAll_keys _ _ ((Check_iff p Line).mp hc).2.2.1

theorem Parse_checkProduct (p : OrderParser) (Line : String) (j : productKey) :
    (p.Parse Line).Inventory.CheckProduct j = p.Inventory.CheckProduct j :=
  checkProduct_eq_of_keys _ _ (Parse_keys p Line) j

theorem parseAll_checkProduct (p : OrderParser) (lines : List String) (j : productKey) :
    (parseAll p lines).Inventory.CheckProduct j = p.Inventory.CheckProduct j := by
  induction lines generalizing p with
  | nil => rfl
  | cons l rest ih => rw [parseAll_cons, ih, Parse_checkProduct]

theorem foldl_Store_checkProduct (pairs : List (productKey × Nat)) (w : Warehouse)
    (j : productKey) :
    (pairs.foldl (fun w pq => w.Store pq.1 pq.2) w).CheckProduct j
      = (w.CheckProduct j || pairs.any (fun pq => j == pq.1)) := by
  induction pairs generalizing w with
  | nil => simp
  | cons pq rest ih =>
    simp only [List.foldl_cons, List.any_cons]
    rw [ih, Warehouse.Store_checkProduct]
    cases (j == pq.1) <;> cases w.CheckProduct j <;> simp

/-- In an engine built from a stocking line, the products with an entry are the
products of the stocking pairs, whatever lines have been processed since. -/
theorem engine_checkProduct (stocking : String) (lines : List String) (j : productKey) :
    (parseAll (ofInventoryLine stocking) lines).Inventory.CheckProduct j
      = (stockingPairs stocking).any (fun pq => j == pq.1) := by
  rw [parseAll_checkProduct]
  unfold ofInventoryLine stockingPairs
  simp only
  rw [storeLoop_eq, foldl_Store_checkProduct]
  simp [Warehouse.CheckProduct, Warehouse.new, find]

/-- A pair with a product that has no entry makes `Check` reject the line. -/
theorem Check_of_unknown (p : OrderParser) (Line : String)
    (h : ∃ pq ∈ (tokenize Line).pairs, p.Inventory.CheckProduct pq.1 = false) :
    p.Check Line = false := by
  cases hc : p.Check Line with
  | false => rfl
  | true =>
    obtain ⟨pq, hpq, hk⟩ := h
    have := ((Check_iff p Line).mp hc).2.2.1 pq hpq
    rw [hk] at this
    exact absurd this (by simp)

end OrderParser

/-! ## Exact totals: no wrap-around -/

namespace Warehouse

/-- A successful pull on an exact warehouse subtracts without underflow. -/
theorem Pull_exact_of_le (w : Warehouse) (k : productKey) (c : Nat)
    (hw : w.Exact) (hle : c ≤ w.stock k) :
    c ≤ w.TotalInventory ∧
      (w.Pull k c).2.stock k = w.stock k - c ∧
      (w.Pull k c).2.TotalInventory = w.TotalInventory - c ∧
      sumStock (w.Pull k c).2.Stores = sumStock w.Stores - c ∧
      (w.Pull k c).2.Exact := by
  have h3 := stock_lt_of_inRange w k hw.1
  have h2 : w.stock k ≤ sumStock w.Stores := value_le_sumStock w.Stores k
  have htot : c ≤ w.TotalInventory := by rw [hw.2]; omega
  have hr := Pull_inRange w k c hw.1
  rw [Pull_of_le w k c hle] at hr ⊢
  have h1 := sumStock_assign (subscript w.Stores k) k (usub (w.stock k) c)
    (by simp [find_subscript_self])
  simp only [value_subscript, sumStock_subscript] at h1
  rw [usub_of_le _ _ hle h3] at h1 hr ⊢
  rw [usub_of_le _ _ htot hw.1.1] at hr ⊢
  have hs : sumStock (assign (subscript w.Stores k) k (w.stock k - c))
      = sumStock w.Stores - c := by
    unfold stock at *
    omega
  refine ⟨htot, ?_, rfl, hs, hr, ?_⟩
  · simp [stock, value, find_assign_self, find_subscript_self]
  · simp only
    rw [hs, hw.2]

/-- A failed pull keeps an exact warehouse exact and its sum the same. -/
theorem Pull_exact_of_lt (w : Warehouse) (k : productKey) (c : Nat)
    (hw : w.Exact) (hlt : w.stock k < c) :
    sumStock (w.Pull k c).2.Stores = sumStock w.Stores ∧ (w.Pull k c).2.Exact := by
  have hr := Pull_inRange w k c hw.1
  rw [Pull_of_lt w k c hlt] at hr ⊢
  refine ⟨sumStock_subscript _ _, hr, ?_⟩
  simp only
  rw [sumStock_subscript]
  exact hw.2

theorem Pull_exact (w : Warehouse) (k : productKey) (c : Nat) (hw : w.Exact) :
    (w.Pull k c).2.Exact ∧ sumStock (w.Pull k c).2.Stores ≤ sumStock w.Stores := by
  by_cases h : w.stock k < c
  · have := Pull_exact_of_lt w k c hw h
    exact ⟨this.2, le_of_eq this.1⟩
  · have := Pull_exact_of_le w k c hw (Nat.le_of_not_lt h)
    exact ⟨this.2.2.2.2, by rw [this.2.2.2.1]; omega⟩

/-- A store whose count fits next to the present sum keeps the warehouse exact. -/
theorem Store_exact (w : Warehouse) (k : productKey) (c : Nat) (hw : w.Exact)
    (hc : sumStock w.Stores + c < UINT_MOD) :
    (w.Store k c).Exact ∧ sumStock (w.Store k c).Stores = sumStock w.Stores + c := by
  have hr := Store_inRange w k c hw.1
  have h2 : value w.Stores k ≤ sumStock w.Stores := value_le_sumStock w.Stores k
  have h1 := sumStock_assign (subscript w.Stores k) k
    (uadd (value (subscript w.Stores k) k) c) (by simp [find_subscript_self])
  simp only [value_subscript, sumStock_subscript] at h1
  have e1 : uadd (value w.Stores k) c = value w.Stores k + c :=
    Nat.mod_eq_of_lt (by omega)
  have e2 : uadd w.TotalInventory c = w.TotalInventory + c :=
    Nat.mod_eq_of_lt (by rw [hw.2]; exact hc)
  rw [e1] at h1
  have hs : sumStock (w.Store k c).Stores = sumStock w.Stores + c := by
    simp only [Store, value_subscript, e1]
    omega
  refine ⟨⟨hr, ?_⟩, hs⟩
  rw [hs]
  simp only [Store, e2]
  rw [hw.2]

end Warehouse

/-- Allocation of one line on an exact warehouse: what leaves the stock of a
product and the total is what the line has pulled. -/
theorem Allocate_conserves (l : OrderLine) (w : Warehouse) (j : productKey)
    (hw : w.Exact) :
    (l.Allocate w).2.Exact ∧
      w.stock j = (l.Allocate w).2.stock j
        + (if (l.Allocate w).1.Product = j then (l.Allocate w).1.Pulled else 0) ∧
      w.TotalInventory = (l.Allocate w).2.TotalInventory + (l.Allocate w).1.Pulled := by
  by_cases h : w.stock l.Product < l.Requested
  · have hf : (w.Pull l.Product l.Requested).1 = false := by
      rw [Warehouse.Pull_fst]; simp [h]
    have hfr := Warehouse.Pull_of_lt_frame w l.Product l.Requested h
    rw [OrderLine.Allocate_of_not_pull l w hf]
    refine ⟨(Warehouse.Pull_exact_of_lt w l.Product l.Requested hw h).2, ?_, ?_⟩
    · simp [hfr.2.1 j]
    · simp [hfr.1]
  · have hle : l.Requested ≤ w.stock l.Product := Nat.le_of_not_lt h
    have ht : (w.Pull l.Product l.Requested).1 = true := by
      rw [Warehouse.Pull_fst]; simp [hle]
    have hx := Warehouse.Pull_exact_of_le w l.Product l.Requested hw hle
    rw [OrderLine.Allocate_of_pull l w ht]
    refine ⟨hx.2.2.2.2, ?_, ?_⟩
    · by_cases hj : l.Product = j
      · subst hj
        simp only [if_true]
        rw [hx.2.1]
        omega
      · simp only [hj, if_false, Nat.add_zero]
        exact (Warehouse.Pull_stock_ne w l.Product j l.Requested (Ne.symm hj)).symm
    · simp only
      rw [hx.2.2.1]
      omega

theorem allocateAll_conserves (pairs : List (productKey × Nat)) (w : Warehouse)
    (j : productKey) (hw : w.Exact) :
    (allocateAll pairs w).2.Exact ∧
      w.stock j = (allocateAll pairs w).2.stock j + pulledOfLines j (allocateAll pairs w).1 ∧
      w.TotalInventory
        = (allocateAll pairs w).2.TotalInventory + pulledLines (allocateAll pairs w).1 := by
  induction pairs generalizing w with
  | nil => exact ⟨hw, rfl, rfl⟩
  | cons pq rest ih =>
    obtain ⟨product, quantity⟩ := pq
    have h1 := Allocate_conserves (OrderLine.new product quantity) w j hw
    have h2 := ih ((OrderLine.new product quantity).Allocate w).2 h1.1
    rw [allocateAll_cons]
    refine ⟨h2.1, ?_, ?_⟩
    · simp only [pulledOfLines]
      rw [h1.2.1, h2.2.1]
      omega
    · simp only [pulledLines]
      rw [h1.2.2, h2.2.2]
      omega

theorem pulledOf_append (j : productKey) (a b : List Order) :
    pulledOf j (a ++ b) = pulledOf j a + pulledOf j b := by
  induction a with
  | nil => simp [pulledOf]
  | cons o rest ih => simp [pulledOf, ih]; omega

theorem pulledAll_append (a b : List Order) :
    pulledAll (a ++ b) = pulledAll a + pulledAll b := by
  induction a with
  | nil => simp [pulledAll]
  | cons o rest ih => simp [pulledAll, ih]; omega

namespace OrderParser

/-- One `Parse` on an engine with an exact warehouse: stock plus pulled
quantities in the log is the same before and after, for each product and for the
total. -/
theorem Parse_conserves (p : OrderParser) (Line : String) (j : productKey)
    (hw : p.Inventory.Exact) :
    (p.Parse Line).Inventory.Exact ∧
      p.Inventory.stock j + pulledOf j p.Log.Orders
        = (p.Parse Line).Inventory.stock j + pulledOf j (p.Parse Line).Log.Orders ∧
      p.Inventory.TotalInventory + pulledAll p.Log.Orders
        = (p.Parse Line).Inventory.TotalInventory + pulledAll (p.Parse Line).Log.Orders := by
  cases hc : p.Check Line with
  | false =>
    rw [Parse_of_not_check p Line hc]
    exact ⟨hw, rfl, rfl⟩
  | true =>
    have h := allocateAll_conserves (tokenize Line).pairs p.Inventory j hw
    rw [Parse_of_check p Line hc]
    refine ⟨h.1, ?_, ?_⟩
    · simp only [pulledOf_append, pulledOf]
      rw [h.2.1]
      omega
    · simp only [pulledAll_append, pulledAll]
      rw [h.2.2]
      omega

theorem parseAll_conserves (p : OrderParser) (lines : List String) (j : productKey)
    (hw : p.Inventory.Exact) :
    (parseAll p lines).Inventory.Exact ∧
      p.Inventory.stock j + pulledOf j p.Log.Orders
        = (parseAll p lines).Inventory.stock j + pulledOf j (parseAll p lines).Log.Orders ∧
      p.Inventory.TotalInventory + pulledAll p.Log.Orders
        = (parseAll p lines).Inventory.TotalInventory
          + pulledAll (parseAll p lines).Log.Orders := by
  induction lines generalizing p with
  | nil => exact ⟨hw, rfl, rfl⟩
  | cons l rest ih =>
    have h1 := Parse_conserves p l j hw
    have h2 := ih (p.Parse l) h1.1
    rw [parseAll_cons]
    exact ⟨h2.1, h1.2.1.trans h2.2.1, h1.2.2.trans h2.2.2⟩

end OrderParser

/-- A sequence of calls whose stored counts fit next to the present sum keeps
the warehouse exact. -/
theorem runOps_exact (w : Warehouse) (ops : List Op) (hw : w.Exact)
    (h : sumStock w.Stores + storedSum ops < UINT_MOD) : (runOps w ops).Exact := by
  induction ops generalizing w with
  | nil => exact hw
  | cons o rest ih =>
    cases o with
    | store k c =>
      have hb : sumStock w.Stores + c < UINT_MOD := by
        simp only [storedSum] at h
        omega
      have h1 := Warehouse.Store_exact w k c hw hb
      refine ih (w.Store k c) h1.1 ?_
      rw [h1.2]
      simp only [storedSum] at h
      omega
    | pull k c =>
      have h1 := Warehouse.Pull_exact w k c hw
      refine ih (w.Pull k c).2 h1.1 ?_
      simp only [storedSum] at h
      omega

/-! ## Claims C11 and C17 to C20 -/

/-- C11: a line with a pair whose product has no entry in the warehouse is
rejected by `Check` whatever its other pairs are, and `Parse` leaves the engine
as it was.  In an engine built from a stocking line the products with an entry
are exactly the stocked products, so there a pair with a product that was never
stocked rejects the line.  Scenario C: with the inventory `A 3` the line
`S1 H1 Z 1` is rejected, the log and its dump stay empty, the inventory is not
empty afterwards and the loop goes on polling. -/
theorem Check_rejects_unknown_product :
    (∀ (p : OrderParser) (Line : String),
      (∃ pq ∈ (tokenize Line).pairs, p.Inventory.CheckProduct pq.1 = false) →
        p.Check Line = false ∧ p.Parse Line = p) ∧
    (∀ (stocking : String) (lines : List String) (Line : String),
      (∃ pq ∈ (tokenize Line).pairs, ∀ st ∈ stockingPairs stocking, pq.1 ≠ st.1) →
        (OrderParser.parseAll (OrderParser.ofInventoryLine stocking) lines).Check Line
          = false) ∧
    ((tokenize "S1 H1 Z 1").pairs = [('Z', 1)] ∧
      (OrderParser.ofInventoryLine "A 3").Inventory.CheckProduct 'Z' = false ∧
      (OrderParser.ofInventoryLine "A 3").Check "S1 H1 Z 1" = false ∧
      ((OrderParser.ofInventoryLine "A 3").Parse "S1 H1 Z 1").Log.Orders = [] ∧
      ((OrderParser.ofInventoryLine "A 3").Parse "S1 H1 Z 1").Log.Dump = "" ∧
      ((OrderParser.ofInventoryLine "A 3").Parse "S1 H1 Z 1").Inventory.IsEmpty = false ∧
      (OrderParser.ofInventoryLine "A 3").ParseFile (some ["S1 H1 Z 1"])
        = .polling (OrderParser.ofInventoryLine "A 3")) := by
  refine ⟨fun p Line h => ?_, fun stocking lines Line h => ?_, by decide⟩
  · have hc := OrderParser.Check_of_unknown p Line h
    exact ⟨hc, OrderParser.Parse_of_not_check p Line hc⟩
  · obtain ⟨pq, hpq, hne⟩ := h
    refine OrderParser.Check_of_unknown _ Line ⟨pq, hpq, ?_⟩
    rw [OrderParser.engine_checkProduct]
    cases hany : (stockingPairs stocking).any (fun st => pq.1 == st.1) with
    | false => rfl
    | true =>
      obtain ⟨st, hst, he⟩ := List.any_eq_true.mp hany
      exact absurd (by simpa using he) (hne st hst)

/-- C11 (witness): the general part at the inventory `A 3` and the line
`S1 H1 A 1 Z 1`, whose first pair is acceptable. -/
theorem Check_rejects_unknown_product_witness :
    (∃ pq ∈ (tokenize "S1 H1 A 1 Z 1").pairs,
        (OrderParser.ofInventoryLine "A 3").Inventory.CheckProduct pq.1 = false) ∧
      (OrderParser.ofInventoryLine "A 3").Check "S1 H1 A 1 Z 1" = false :=
  ⟨by decide,
    (Check_rejects_unknown_product.1 (OrderParser.ofInventoryLine "A 3") "S1 H1 A 1 Z 1"
      (by decide)).1⟩

/-- C17: stock conservation.  Start from a warehouse whose total is the sum of
its stock counts without wrap-around and from an empty log, and process any
sequence of lines with `Parse`.  Then for every product the initial stock is the
current stock plus the pulled quantities of all lines for that product in the
log, the initial total is the current total plus all pulled quantities in the
log, and neither the stock of the product nor the total has grown. -/
theorem Parse_conserves_stock (w0 : Warehouse) (lines : List String) (Product : productKey)
    (h : w0.Exact) :
    w0.stock Product
        = (OrderParser.parseAll { Inventory := w0, Log := OrderLog.new } lines).Inventory.stock
            Product
          + pulledOf Product
            (OrderParser.parseAll { Inventory := w0, Log := OrderLog.new } lines).Log.Orders ∧
      w0.TotalInventory
        = (OrderParser.parseAll
            { Inventory := w0, Log := OrderLog.new } lines).Inventory.TotalInventory
          + pulledAll
            (OrderParser.parseAll { Inventory := w0, Log := OrderLog.new } lines).Log.Orders ∧
      (OrderParser.parseAll { Inventory := w0, Log := OrderLog.new } lines).Inventory.stock
          Product ≤ w0.stock Product ∧
      (OrderParser.parseAll
          { Inventory := w0, Log := OrderLog.new } lines).Inventory.TotalInventory
        ≤ w0.TotalInventory ∧
      (OrderParser.parseAll { Inventory := w0, Log := OrderLog.new } lines).Inventory.Exact := by
  have hc := OrderParser.parseAll_conserves { Inventory := w0, Log := OrderLog.new } lines
    Product h
  simp only [OrderLog.new, pulledOf, pulledAll, Nat.add_zero] at hc
  simp only [OrderLog.new]
  exact ⟨hc.2.1, hc.2.2, by omega, by omega, hc.1⟩

/-- C17 (witness): default stock `A = 3`, `B = 3`, lines `S1 H1 A 4 B 1` and
`S1 H2 A 2`, product `A`. -/
theorem Parse_conserves_stock_witness :
    OrderParser.new.Inventory.Exact ∧
      OrderParser.new.Inventory.stock 'A'
        = (OrderParser.parseAll { Inventory := OrderParser.new.Inventory, Log := OrderLog.new }
            ["S1 H1 A 4 B 1", "S1 H2 A 2"]).Inventory.stock 'A'
          + pulledOf 'A'
            (OrderParser.parseAll { Inventory := OrderParser.new.Inventory, Log := OrderLog.new }
              ["S1 H1 A 4 B 1", "S1 H2 A 2"]).Log.Orders :=
  ⟨by decide,
    (Parse_conserves_stock OrderParser.new.Inventory ["S1 H1 A 4 B 1", "S1 H2 A 2"] 'A'
      (by decide)).1⟩

/-- C18: `Parse` of any line, valid or not, leaves the entries of the warehouse
the same: the list of keys is unchanged and `CheckProduct` answers the same for
every product.  For a valid line every allocation pulls a product that has an
entry in the warehouse it is applied to. -/
theorem Parse_keeps_entries (p : OrderParser) (Line : String) :
    keys (p.Parse Line).Inventory.Stores = keys p.Inventory.Stores ∧
      (∀ j, (p.Parse Line).Inventory.CheckProduct j = p.Inventory.CheckProduct j) ∧
      (p.Check Line = true →
        ∀ (i : Nat) (hi : i < (tokenize Line).pairs.length),
          (allocateAll ((tokenize Line).pairs.take i) p.Inventory).2.CheckProduct
            ((tokenize Line).pairs.get ⟨i, hi⟩).1 = true) := by
  refine ⟨OrderParser.Parse_keys p Line, OrderParser.Parse_checkProduct p Line,
    fun hc i hi => ?_⟩
  apply allocateAll_checkProduct
  exact ((OrderParser.Check_iff p Line).mp hc).2.2.1 _ (List.get_mem _ _ _)

/-- C18 (witness): default stock `A = 3`, `B = 3` and the valid line
`S1 H1 A 4 B 1`. -/
theorem Parse_keeps_entries_witness :
    keys (OrderParser.new.Parse "S1 H1 A 4 B 1").Inventory.Stores = ['A', 'B'] :=
  (Parse_keeps_entries OrderParser.new "S1 H1 A 4 B 1").1.trans (by decide)

/-- C19: after a sequence of `Store` and `Pull` calls on a fresh warehouse whose
stored counts add up to less than `2^32`, `IsEmpty` is true exactly when every
entry has stock 0, and the total is the sum of the stock counts.  Without the
bound this fails: after `Store('A', 4294967295)` and `Store('B', 1)` `IsEmpty`
is true and `A` holds 4294967295. -/
theorem IsEmpty_iff_depleted :
    (∀ ops : List Op, storedSum ops < 4294967296 →
      (((runOps Warehouse.new ops).IsEmpty = true ↔
          ∀ e ∈ (runOps Warehouse.new ops).Stores, e.2 = 0) ∧
        (runOps Warehouse.new ops).TotalInventory
          = sumStock (runOps Warehouse.new ops).Stores)) ∧
    (∃ ops : List Op, ops.all Op.isStore = true ∧
      (runOps Warehouse.new ops).IsEmpty = true ∧
      (runOps Warehouse.new ops).stock 'A' = 4294967295) := by
  refine ⟨fun ops h => ?_, ⟨[Op.store 'A' 4294967295, Op.store 'B' 1], by decide⟩⟩
  have hx : (runOps Warehouse.new ops).Exact :=
    runOps_exact Warehouse.new ops (by decide)
      (by simpa [Warehouse.new, sumStock, UINT_MOD] using h)
  refine ⟨?_, hx.2⟩
  rw [OrderParser.IsEmpty_iff, hx.2]
  exact sumStock_eq_zero_iff _

/-- C19 (witness): `Store('A', 2)`, `Pull('A', 2)`, `Pull('B', 1)`. -/
theorem IsEmpty_iff_depleted_witness :
    storedSum [Op.store 'A' 2, Op.pull 'A' 2, Op.pull 'B' 1] < 4294967296 ∧
      ((runOps Warehouse.new [Op.store 'A' 2, Op.pull 'A' 2, Op.pull 'B' 1]).IsEmpty = true ↔
        ∀ e ∈ (runOps Warehouse.new [Op.store 'A' 2, Op.pull 'A' 2, Op.pull 'B' 1]).Stores,
          e.2 = 0) :=
  ⟨by decide,
    (IsEmpty_iff_depleted.1 [Op.store 'A' 2, Op.pull 'A' 2, Op.pull 'B' 1] (by decide)).1⟩

/-- C20: in a warehouse whose total is the sum of its stock counts without
wrap-around, a successful `Pull` does not underflow: the count is at most the
stock of the product and at most the total, both subtractions are exact, and the
total is again the sum of the stock counts. -/
theorem Pull_no_underflow (w : Warehouse) (UnitType : productKey) (Count : Nat)
    (hw : w.Exact) (hp : (w.Pull UnitType Count).1 = true) :
    Count ≤ w.stock UnitType ∧ Count ≤ w.TotalInventory ∧
      (w.Pull UnitType Count).2.stock UnitType = w.stock UnitType - Count ∧
      (w.Pull UnitType Count).2.TotalInventory = w.TotalInventory - Count ∧
      (w.Pull UnitType Count).2.TotalInventory = sumStock (w.Pull UnitType Count).2.Stores ∧
      (w.Pull UnitType Count).2.InRange := by
  have hle : Count ≤ w.stock UnitType := by
    rw [Warehouse.Pull_fst] at hp
    simpa using hp
  have hx := Warehouse.Pull_exact_of_le w UnitType Count hw hle
  exact ⟨hle, hx.1, hx.2.1, hx.2.2.1, hx.2.2.2.2.2, hx.2.2.2.2.1⟩

/-- C20 (witness): default stock `A = 3`, `B = 3` and `Pull('A', 2)`. -/
theorem Pull_no_underflow_witness :
    OrderParser.new.Inventory.Exact ∧ (OrderParser.new.Inventory.Pull 'A' 2).1 = true ∧
      2 ≤ OrderParser.new.Inventory.TotalInventory ∧
      (OrderParser.new.Inventory.Pull 'A' 2).2.TotalInventory
        = OrderParser.new.Inventory.TotalInventory - 2 :=
  ⟨by decide, by decide,
    (Pull_no_underflow OrderParser.new.Inventory 'A' 2 (by decide) (by decide)).2.1,
    (Pull_no_underflow OrderParser.new.Inventory 'A' 2 (by decide) (by decide)).2.2.2.1⟩

end Shipwire
